import Mathlib

/-!
Verification of the cpp-chess position library against its specification.

The development shallowly embeds the C++ sources: bitboards (unsigned
64-bit integers) become natural numbers that are kept below 2 to the 64,
enum types become inductive types with the same constructor order, and
functions are translated statement by statement.  Operations that the
sources perform on wrapping unsigned integers are written with an
explicit modulus.  Fallible operations return Except or Option values.
-/

namespace CppChess

/-- Bitboards: unsigned 64-bit integers in the source (using Bitboard =
unsigned long long).  Embedded as natural numbers; the width shows up as
explicit masking with BB_ALL and bounds of 2 to the 64. -/
abbrev Bitboard := Nat

/-- Squares are integers in the source (enum Square : int).  Embedded as
natural numbers; bit i of a bitboard corresponds to square i. -/
abbrev Square := Nat

/-- BB_EMPTY = 0ULL (BitboardNames.hpp). -/
def BB_EMPTY : Bitboard := 0

/-- BB_ALL = 0xffffffffffffffffULL (BitboardNames.hpp). -/
def BB_ALL : Bitboard := 0xffffffffffffffff

/-- BB_SQUARES[i] = 1ULL shifted left by i (BitboardNames.hpp). -/
def BB_SQUARES (i : Nat) : Bitboard := 1 <<< i

/-- BB_FILES[i] = 0x0101010101010101ULL shifted left by i (BitboardNames.hpp). -/
def BB_FILES (i : Nat) : Bitboard := 0x0101010101010101 <<< i

/-- BB_RANKS[i] = 0xffULL shifted left by 8*i (BitboardNames.hpp). -/
def BB_RANKS (i : Nat) : Bitboard := 0xff <<< (8 * i)

def BB_FILE_A : Bitboard := BB_FILES 0
def BB_FILE_H : Bitboard := BB_FILES 7
def BB_RANK_1 : Bitboard := BB_RANKS 0
def BB_RANK_2 : Bitboard := BB_RANKS 1
def BB_RANK_7 : Bitboard := BB_RANKS 6
def BB_RANK_8 : Bitboard := BB_RANKS 7

/-- BB_CORNERS = BB_A1 | BB_H1 | BB_A8 | BB_H8 (BitboardNames.hpp). -/
def BB_CORNERS : Bitboard := BB_SQUARES 0 ||| BB_SQUARES 7 ||| BB_SQUARES 56 ||| BB_SQUARES 63

/-- BB_BACKRANKS = BB_RANK_1 | BB_RANK_8 (BitboardNames.hpp). -/
def BB_BACKRANKS : Bitboard := BB_RANK_1 ||| BB_RANK_8

/-- The bitwise complement operator of C++ on a 64-bit operand: all 64
bits are flipped.  Used wherever the source writes a tilde. -/
def bbnot (b : Bitboard) : Bitboard := BB_ALL ^^^ b

/-- lsb (BitboardOps.hpp): returns __builtin_ctzll(bb), the number of
trailing zero bits, which for bb nonzero is the index of the least
significant set bit.  For bb = 0 the builtin is undefined; the model
returns 64, the value of the tzcnt instruction. -/
def lsb (bb : Bitboard) : Nat := (List.range 64).findIdx (fun i => bb.testBit i)

/-- msb (BitboardOps.hpp): the source returns __builtin_clzll(bb), the
number of LEADING zero bits, i.e. 63 minus the index of the most
significant set bit (for bb nonzero).  Note that this is not the index
of the most significant set bit itself.  For bb = 0 the builtin is
undefined; the model returns 64. -/
def msb (bb : Bitboard) : Nat := (List.range 64).findIdx (fun i => bb.testBit (63 - i))

/-- popcount (BitboardOps.hpp): __builtin_popcountll, the number of set
bits of a 64-bit value. -/
def popcount (bb : Bitboard) : Nat :=
  ((List.range 64).filter (fun i => bb.testBit i)).length

/-- square_file (BitboardOps.hpp): square & 7. -/
def square_file (square : Square) : Nat := square &&& 7

/-- square_rank (BitboardOps.hpp): square >> 3. -/
def square_rank (square : Square) : Nat := square >>> 3

/-- square_distance (BitboardOps.hpp): Chebyshev distance, the maximum of
the absolute file difference and the absolute rank difference. -/
def square_distance (a b : Square) : Nat :=
  max (Nat.dist (square_file a) (square_file b))
      (Nat.dist (square_rank a) (square_rank b))

/-- Colours (part_003): enum Color : bool with WHITE = 0 = false and
BLACK = 1 = true, in this declaration order. -/
inductive Color where
  | WHITE : Color
  | BLACK : Color
deriving DecidableEq, Repr

export Color (WHITE BLACK)

/-- The C++ negation !color on the bool-backed Color enum. -/
def Color.not : Color → Color
  | WHITE => BLACK
  | BLACK => WHITE

/-- The C++ conversion of an integral value to the bool-backed Color
enum, as in (Color)(occupied_co[WHITE] & mask): any nonzero value
converts to true, i.e. BLACK; zero converts to WHITE. -/
def colorOfUll (x : Nat) : Color := if x = 0 then WHITE else BLACK

/-- Piece types (part_003): enum class PieceType, PAWN = 1 .. KING = 6. -/
inductive PieceType where
  | PAWN : PieceType
  | KNIGHT : PieceType
  | BISHOP : PieceType
  | ROOK : PieceType
  | QUEEN : PieceType
  | KING : PieceType
deriving DecidableEq, Repr

/-- The numeric value of the PieceType enum (PAWN = 1 .. KING = 6). -/
def PieceType.val : PieceType → Nat
  | .PAWN => 1
  | .KNIGHT => 2
  | .BISHOP => 3
  | .ROOK => 4
  | .QUEEN => 5
  | .KING => 6

/-- struct Piece (part_003): a piece type together with a colour. -/
structure Piece where
  piece_type : PieceType
  color : Color
deriving DecidableEq, Repr

/-- class BaseBoard (part_003): nine bitboards describing the placement
of the pieces.  occupied_co is an array indexed by Color; it is split
into its two entries here. -/
structure BaseBoard where
  occupied_w : Bitboard
  occupied_b : Bitboard
  pawns : Bitboard
  knights : Bitboard
  bishops : Bitboard
  rooks : Bitboard
  queens : Bitboard
  kings : Bitboard
  promoted : Bitboard
  occupied : Bitboard
deriving DecidableEq, Repr

namespace BaseBoard

/-- occupied_co[color] of the source. -/
def occupied_co (b : BaseBoard) : Color → Bitboard
  | WHITE => b.occupied_w
  | BLACK => b.occupied_b

/-- _reset_board (part_003): the standard starting placement. -/
def resetBoard : BaseBoard where
  pawns := BB_RANK_2 ||| BB_RANK_7
  knights := BB_SQUARES 1 ||| BB_SQUARES 6 ||| BB_SQUARES 57 ||| BB_SQUARES 62
  bishops := BB_SQUARES 2 ||| BB_SQUARES 5 ||| BB_SQUARES 58 ||| BB_SQUARES 61
  rooks := BB_CORNERS
  queens := BB_SQUARES 3 ||| BB_SQUARES 59
  kings := BB_SQUARES 4 ||| BB_SQUARES 60
  promoted := BB_EMPTY
  occupied_w := BB_RANK_1 ||| BB_RANK_2
  occupied_b := BB_RANK_7 ||| BB_RANK_8
  occupied := BB_RANK_1 ||| BB_RANK_2 ||| BB_RANK_7 ||| BB_RANK_8

/-- _clear_board (part_003): the empty placement. -/
def clearBoard : BaseBoard where
  pawns := BB_EMPTY
  knights := BB_EMPTY
  bishops := BB_EMPTY
  rooks := BB_EMPTY
  queens := BB_EMPTY
  kings := BB_EMPTY
  promoted := BB_EMPTY
  occupied_w := BB_EMPTY
  occupied_b := BB_EMPTY
  occupied := BB_EMPTY

/-- piece_type_at (part_003): consults the per-type bitboards in a fixed
order; the final else returns KING without testing the king mask. -/
def piece_type_at (b : BaseBoard) (square : Square) : Option PieceType :=
  let mask := BB_SQUARES square
  if b.occupied &&& mask = 0 then none
  else if b.pawns &&& mask ≠ 0 then some .PAWN
  else if b.knights &&& mask ≠ 0 then some .KNIGHT
  else if b.bishops &&& mask ≠ 0 then some .BISHOP
  else if b.rooks &&& mask ≠ 0 then some .ROOK
  else if b.queens &&& mask ≠ 0 then some .QUEEN
  else some .KING

/-- piece_at (part_003): the colour is computed by the C++ cast
(Color)(occupied_co[WHITE] & mask). -/
def piece_at (b : BaseBoard) (square : Square) : Option Piece :=
  match b.piece_type_at square with
  | some pt =>
    let mask := BB_SQUARES square
    let color := colorOfUll (b.occupied_w &&& mask)
    some ⟨pt, color⟩
  | none => none

/-- color_at (part_003): tests occupied_co[WHITE] and occupied_co[BLACK]
against the square mask. -/
def color_at (b : BaseBoard) (square : Square) : Option Color :=
  let mask := BB_SQUARES square
  if b.occupied_w &&& mask ≠ 0 then some WHITE
  else if b.occupied_b &&& mask ≠ 0 then some BLACK
  else none

/-- king (part_003): the mask of non-promoted kings of the colour; if it
is nonzero the source returns (Square)msb(king_mask), with msb defined
in BitboardOps.hpp as __builtin_clzll. -/
def king (b : BaseBoard) (color : Color) : Option Square :=
  let king_mask := b.occupied_co color &&& b.kings &&& bbnot b.promoted
  if king_mask ≠ 0 then some (msb king_mask) else none

/-- _remove_piece_at (part_003): clears the square from the piece mask
found there, from occupied, from both colour masks and from promoted;
returns the removed piece type. -/
def removePieceAt (b : BaseBoard) (square : Square) : Option PieceType × BaseBoard :=
  let piece_type := b.piece_type_at square
  let mask := BB_SQUARES square
  match piece_type with
  | none => (none, b)
  | some pt =>
    let b := match pt with
      | .PAWN => { b with pawns := b.pawns ^^^ mask }
      | .KNIGHT => { b with knights := b.knights ^^^ mask }
      | .BISHOP => { b with bishops := b.bishops ^^^ mask }
      | .ROOK => { b with rooks := b.rooks ^^^ mask }
      | .QUEEN => { b with queens := b.queens ^^^ mask }
      | .KING => { b with kings := b.kings ^^^ mask }
    (some pt,
      { b with
        occupied := b.occupied ^^^ mask
        occupied_w := b.occupied_w &&& bbnot mask
        occupied_b := b.occupied_b &&& bbnot mask
        promoted := b.promoted &&& bbnot mask })

/-- remove_piece_at (part_003): reads the colour through the C++ cast,
then delegates to _remove_piece_at. -/
def remove_piece_at (b : BaseBoard) (square : Square) : Option Piece × BaseBoard :=
  let color := colorOfUll (b.occupied_w &&& BB_SQUARES square)
  match b.removePieceAt square with
  | (some pt, b) => (some ⟨pt, color⟩, b)
  | (none, b) => (none, b)

/-- _set_piece_at (part_003): removes any piece on the square, then sets
the square in the piece-type mask, toggles it into occupied and into the
colour mask, and into promoted when requested. -/
def setPieceAtRaw (b : BaseBoard) (square : Square) (piece_type : PieceType)
    (color : Color) (was_promoted : Bool) : BaseBoard :=
  let b := (b.removePieceAt square).2
  let mask := BB_SQUARES square
  let b := match piece_type with
    | .PAWN => { b with pawns := b.pawns ||| mask }
    | .KNIGHT => { b with knights := b.knights ||| mask }
    | .BISHOP => { b with bishops := b.bishops ||| mask }
    | .ROOK => { b with rooks := b.rooks ||| mask }
    | .QUEEN => { b with queens := b.queens ||| mask }
    | .KING => { b with kings := b.kings ||| mask }
  let b := { b with occupied := b.occupied ^^^ mask }
  let b := match color with
    | WHITE => { b with occupied_w := b.occupied_w ^^^ mask }
    | BLACK => { b with occupied_b := b.occupied_b ^^^ mask }
  if was_promoted then { b with promoted := b.promoted ^^^ mask } else b

/-- set_piece_at (part_003): setting an absent piece removes instead. -/
def set_piece_at (b : BaseBoard) (square : Square) (piece : Option Piece)
    (was_promoted : Bool) : BaseBoard :=
  match piece with
  | none => (b.removePieceAt square).2
  | some p => b.setPieceAtRaw square p.piece_type p.color was_promoted

/-- The data-model invariant, stated with the mask equations of the
specification. -/
structure Inv (b : BaseBoard) : Prop where
  pn_kn : b.pawns &&& b.knights = 0
  pn_bi : b.pawns &&& b.bishops = 0
  pn_ro : b.pawns &&& b.rooks = 0
  pn_qu : b.pawns &&& b.queens = 0
  pn_ki : b.pawns &&& b.kings = 0
  kn_bi : b.knights &&& b.bishops = 0
  kn_ro : b.knights &&& b.rooks = 0
  kn_qu : b.knights &&& b.queens = 0
  kn_ki : b.knights &&& b.kings = 0
  bi_ro : b.bishops &&& b.rooks = 0
  bi_qu : b.bishops &&& b.queens = 0
  bi_ki : b.bishops &&& b.kings = 0
  ro_qu : b.rooks &&& b.queens = 0
  ro_ki : b.rooks &&& b.kings = 0
  qu_ki : b.queens &&& b.kings = 0
  types_cover : b.pawns ||| b.knights ||| b.bishops ||| b.rooks ||| b.queens ||| b.kings = b.occupied
  colors_disj : b.occupied_w &&& b.occupied_b = 0
  colors_cover : b.occupied_w ||| b.occupied_b = b.occupied
  promoted_sub : b.promoted &&& b.occupied = b.promoted
  w_pawns : b.pawns < 2 ^ 64
  w_knights : b.knights < 2 ^ 64
  w_bishops : b.bishops < 2 ^ 64
  w_rooks : b.rooks < 2 ^ 64
  w_queens : b.queens < 2 ^ 64
  w_kings : b.kings < 2 ^ 64
  w_occ_w : b.occupied_w < 2 ^ 64
  w_occ_b : b.occupied_b < 2 ^ 64
  w_promoted : b.promoted < 2 ^ 64
  w_occupied : b.occupied < 2 ^ 64

/-- The bit-at-a-time reading of the invariant at one bit index. -/
def InvAt (b : BaseBoard) (i : Nat) : Prop :=
  ¬(b.pawns.testBit i = true ∧ b.knights.testBit i = true) ∧
  ¬(b.pawns.testBit i = true ∧ b.bishops.testBit i = true) ∧
  ¬(b.pawns.testBit i = true ∧ b.rooks.testBit i = true) ∧
  ¬(b.pawns.testBit i = true ∧ b.queens.testBit i = true) ∧
  ¬(b.pawns.testBit i = true ∧ b.kings.testBit i = true) ∧
  ¬(b.knights.testBit i = true ∧ b.bishops.testBit i = true) ∧
  ¬(b.knights.testBit i = true ∧ b.rooks.testBit i = true) ∧
  ¬(b.knights.testBit i = true ∧ b.queens.testBit i = true) ∧
  ¬(b.knights.testBit i = true ∧ b.kings.testBit i = true) ∧
  ¬(b.bishops.testBit i = true ∧ b.rooks.testBit i = true) ∧
  ¬(b.bishops.testBit i = true ∧ b.queens.testBit i = true) ∧
  ¬(b.bishops.testBit i = true ∧ b.kings.testBit i = true) ∧
  ¬(b.rooks.testBit i = true ∧ b.queens.testBit i = true) ∧
  ¬(b.rooks.testBit i = true ∧ b.kings.testBit i = true) ∧
  ¬(b.queens.testBit i = true ∧ b.kings.testBit i = true) ∧
  ((b.pawns.testBit i = true ∨ b.knights.testBit i = true ∨ b.bishops.testBit i = true ∨
    b.rooks.testBit i = true ∨ b.queens.testBit i = true ∨ b.kings.testBit i = true) ↔
    b.occupied.testBit i = true) ∧
  ¬(b.occupied_w.testBit i = true ∧ b.occupied_b.testBit i = true) ∧
  ((b.occupied_w.testBit i = true ∨ b.occupied_b.testBit i = true) ↔
    b.occupied.testBit i = true) ∧
  (b.promoted.testBit i = true → b.occupied.testBit i = true) ∧
  (64 ≤ i →
    b.pawns.testBit i = false ∧ b.knights.testBit i = false ∧
    b.bishops.testBit i = false ∧ b.rooks.testBit i = false ∧
    b.queens.testBit i = false ∧ b.kings.testBit i = false ∧
    b.occupied_w.testBit i = false ∧ b.occupied_b.testBit i = false ∧
    b.promoted.testBit i = false ∧ b.occupied.testBit i = false)

end BaseBoard

/-- SquareSet::pop (part_000).  The mask is the internal state of the
SquareSet.  The source contains the statement
(if (!mask) std::invalid_argument("pop from empty SquareSet");): it
CONSTRUCTS the exception object but never throws it (the throw keyword
is missing), so the function always falls through and returns normally.
For mask = 0 the subsequent lsb call is __builtin_ctzll(0), which is
undefined behaviour in C++; the model returns the value of the Lean lsb
model there.  The C++ (mask - 1) wraps for mask = 0, but since
0 & x = 0 the returned mask is 0 either way, matching Nat subtraction. -/
def SquareSet.pop (mask : Bitboard) : Except String (Square × Bitboard) :=
  Except.ok (lsb mask, mask &&& (mask - 1))

/-- strtools::tolower (StringTools.hpp): characters outside the
uppercase range are returned unchanged. -/
def strtolower (c : Char) : Char :=
  if c < 'A' ∨ 'Z' < c then c else Char.ofNat (c.toNat + 32)

/-- index (Index.hpp, part_000): std::distance from begin to the first
match, which is the length of the container when the value is absent. -/
def index (c : List String) (val : String) : Nat := c.findIdx (· == val)

/-- SQUARE_NAMES (part_003): the source lists the names file-major and
uppercase, i.e. A1, A2, ..., A8, B1, ..., H8. -/
def SQUARE_NAMES : List String := [
  "A1", "A2", "A3", "A4", "A5", "A6", "A7", "A8",
  "B1", "B2", "B3", "B4", "B5", "B6", "B7", "B8",
  "C1", "C2", "C3", "C4", "C5", "C6", "C7", "C8",
  "D1", "D2", "D3", "D4", "D5", "D6", "D7", "D8",
  "E1", "E2", "E3", "E4", "E5", "E6", "E7", "E8",
  "F1", "F2", "F3", "F4", "F5", "F6", "F7", "F8",
  "G1", "G2", "G3", "G4", "G5", "G6", "G7", "G8",
  "H1", "H2", "H3", "H4", "H5", "H6", "H7", "H8"]

/-- PIECE_SYMBOLS (part_003). -/
def PIECE_SYMBOLS : List String := ["-", "p", "n", "b", "r", "q", "k"]

/-- struct Move (part_003): source and target squares with optional
promotion and drop.  promotion and drop are optional<PieceType> where
PieceType is an int-backed enum, so they are embedded as optional
integers (the enum values are PAWN = 1 .. KING = 6); from_uci can store
out-of-range values in them, which the enum type also admits. -/
structure Move where
  from_square : Square
  to_square : Square
  promotion : Option Nat := none
  drp : Option Nat := none
deriving DecidableEq, Repr

/-- Move::null (part_003): Move(A1, A1), and Square::A1 = 0. -/
def Move.null : Move := ⟨0, 0, none, none⟩

/-- Move::from_uci (part_003).  Raises std::invalid_argument for a
length other than 4 or 5 and for equal source and target squares; the
square lookups go through index over SQUARE_NAMES, which yields 64 when
the name is not found.  (In the drop branch the source compares the
lowercased character against the std::string entries of PIECE_SYMBOLS;
the embedding compares against the one-character string.) -/
def Move.from_uci (uci : String) : Except String Move :=
  let cs := uci.data
  if uci = "0000" then
    Except.ok Move.null
  else if cs.length = 4 ∧ cs.getD 1 ' ' = '@' then
    let drp := index PIECE_SYMBOLS (String.mk [strtolower (cs.getD 0 ' ')])
    let square := index SQUARE_NAMES (String.mk (cs.drop 2))
    Except.ok ⟨square, square, none, some drp⟩
  else if 4 ≤ cs.length ∧ cs.length ≤ 5 then
    let from_square := index SQUARE_NAMES (String.mk (cs.take 2))
    let to_square := index SQUARE_NAMES (String.mk ((cs.drop 2).take 2))
    let promotion :=
      if cs.length = 5 then some (index PIECE_SYMBOLS (String.mk [cs.getD 4 ' '])) else none
    if from_square = to_square then
      Except.error ("invalid uci (use 0000 for null moves): " ++ uci)
    else
      Except.ok ⟨from_square, to_square, promotion, none⟩
  else
    Except.error ("expected uci string to be of length 4 or 5: " ++ uci)

/-- A position with a single non-promoted white king standing on E1,
which is bit 4 of the bitboards (BB_E1 = 1ULL shifted left by 4). -/
def kingE1Board : BaseBoard :=
  { BaseBoard.clearBoard with
      kings := BB_SQUARES 4, occupied_w := BB_SQUARES 4, occupied := BB_SQUARES 4 }

namespace BaseBoard

/-- _set_chess960_pos (part_003).  Faithful to the source, including its
n1/n2 search loop, in which the python division and offset became a
trailing comment (the source computes n2 = n + (3 - n1) * (4 - n1) and
the remainder of the line, slash-slash 2 - 5, is comment text).  When no
n1 in 0..3 satisfies the break condition the loop leaves n1 = 4 and n2
holds the value computed in the final iteration, which is n. -/
def setChess960Pos (b : BaseBoard) (scharnagl : Nat) : Except String BaseBoard :=
  if scharnagl > 959 then
    Except.error ("chess960 position index not 0 <= " ++ toString scharnagl ++ " <= 959")
  else
    let ndd := scharnagl / 4
    let bw := scharnagl % 4
    let nd := ndd / 4
    let bb := ndd % 4
    let n := nd / 6
    let q := nd % 6
    let n1n2 :=
      match ([0, 1, 2, 3].map (fun k => (k, n + (3 - k) * (4 - k)))).find?
          (fun p => p.1 < p.2 ∧ 1 ≤ p.2 ∧ p.2 ≤ 4) with
      | some p => p
      | none => (4, n)
    let bw_file := bw * 2 + 1
    let bb_file := bb * 2
    let bishops := (BB_FILES bw_file ||| BB_FILES bb_file) &&& BB_BACKRANKS
    let q_file0 := q
    let q_file1 := q_file0 + (if min bw_file bb_file ≤ q_file0 then 1 else 0)
    let q_file := q_file1 + (if max bw_file bb_file ≤ q_file1 then 1 else 0)
    let queens := BB_FILES q_file &&& BB_BACKRANKS
    let used0 := [bw_file, bb_file, q_file]
    let st := (List.range 8).foldl
      (fun (st : Bitboard × List Nat × Int × Int) i =>
        let used := st.2.1
        if i ∈ used then st
        else
          let kn := st.1
          let n1 := st.2.2.1
          let n2 := st.2.2.2
          let placed : Bitboard × List Nat :=
            if n1 = 0 ∨ n2 = 0 then (kn ||| (BB_FILES i &&& BB_BACKRANKS), used ++ [i])
            else (kn, used)
          (placed.1, placed.2, n1 - 1, n2 - 1))
      (BB_EMPTY, used0, (n1n2.1 : Int), (n1n2.2 : Int))
    let knights := st.1
    let used1 := st.2.1
    let rk1 :=
      match (List.range 8).find? (fun i => ¬ i ∈ used1) with
      | some i => (BB_FILES i &&& BB_BACKRANKS, used1 ++ [i])
      | none => (BB_EMPTY, used1)
    let rooks0 := rk1.1
    let used2 := rk1.2
    let kg :=
      match (List.range' 1 7).find? (fun i => ¬ i ∈ used2) with
      | some i => (BB_FILES i &&& BB_BACKRANKS, used2 ++ [i])
      | none => (BB_EMPTY, used2)
    let kings := kg.1
    let used3 := kg.2
    let rooks :=
      match (List.range' 2 6).find? (fun i => ¬ i ∈ used3) with
      | some i => rooks0 ||| (BB_FILES i &&& BB_BACKRANKS)
      | none => rooks0
    Except.ok { b with
      bishops := bishops, queens := queens, knights := knights,
      rooks := rooks, kings := kings,
      pawns := BB_RANK_2 ||| BB_RANK_7,
      occupied_w := BB_RANK_1 ||| BB_RANK_2,
      occupied_b := BB_RANK_7 ||| BB_RANK_8,
      occupied := BB_RANK_1 ||| BB_RANK_2 ||| BB_RANK_7 ||| BB_RANK_8,
      promoted := BB_EMPTY }

/-- State of the A1..H1 scan in chess960_pos (part_003). -/
structure C960ScanSt where
  q : Nat
  qf : Bool
  n0 : Nat
  n1 : Nat
  n0f : Bool
  n1f : Bool
  rf : Nat

/-- The body of the square scan of chess960_pos; the early return on a
king seen with rf not equal to 1 is modelled through Option. -/
def c960Step (bqueens brooks bkings bknights : Bitboard) (st : C960ScanSt)
    (square : Nat) : Option C960ScanSt :=
  let bb := BB_SQUARES square
  if bb &&& bqueens ≠ 0 then
    some { st with qf := true }
  else if bb &&& brooks ≠ 0 ∨ bb &&& bkings ≠ 0 then
    if bb &&& bkings ≠ 0 ∧ st.rf ≠ 1 then
      none
    else
      let st := if bb &&& bkings ≠ 0 then st else { st with rf := st.rf + 1 }
      let st := if st.qf then st else { st with q := st.q + 1 }
      let st :=
        if ¬ st.n0f then { st with n0 := st.n0 + 1 }
        else if ¬ st.n1f then { st with n1 := st.n1 + 1 }
        else st
      some st
  else if bb &&& bknights ≠ 0 then
    let st := if st.qf then st else { st with q := st.q + 1 }
    let st :=
      if ¬ st.n0f then { st with n0f := true }
      else if ¬ st.n1f then { st with n1f := true }
      else st
    some st
  else
    some st

/-- chess960_pos (part_003).  The first four guards reproduce the C++
operator precedence: occupied_co[WHITE] != BB_RANK_1 | BB_RANK_2 parses
as (occupied_co[WHITE] != BB_RANK_1) | BB_RANK_2, an integral OR of the
comparison bool with the rank mask, and similarly for the next two
guards.  Later, bs1 = (lsb(x) - 1) keeps the whole value: the
python-style division in the source line ends up inside a trailing
comment.  The square loop runs from A1 to H1, which under the file-major
Square enum of the source are the values 0 through 56. -/
def chess960_pos (b : BaseBoard) : Option Nat :=
  if ((if b.occupied_w ≠ BB_RANK_1 then 1 else 0) ||| BB_RANK_2) ≠ 0 then none
  else if ((if b.occupied_b ≠ BB_RANK_7 then 1 else 0) ||| BB_RANK_8) ≠ 0 then none
  else if ((if b.pawns ≠ BB_RANK_2 then 1 else 0) ||| BB_RANK_7) ≠ 0 then none
  else if b.promoted ≠ 0 then none
  else
    let brnqk := [(b.bishops, 4), (b.rooks, 4), (b.knights, 4), (b.queens, 2), (b.kings, 2)]
    if brnqk.any (fun p => popcount p.1 ≠ p.2) then none
    else if brnqk.any (fun p => ((BB_RANK_1 &&& p.1) <<< 56) &&& BB_ALL ≠ BB_RANK_8 &&& p.1) then none
    else
      let x1 := b.bishops &&& (2 + 8 + 32 + 128)
      if x1 = 0 then none
      else
        let bs1 := lsb x1 - 1
        let cc_pos0 := bs1
        let x2 := b.bishops &&& (1 + 4 + 16 + 64)
        if x2 = 0 then none
        else
          let bs2 := lsb x2 * 2
          let cc_pos1 := cc_pos0 + bs2
          let n0s := [0, 4, 7, 9]
          match (List.range 57).foldl
              (fun acc sq => match acc with
                | none => none
                | some st => c960Step b.queens b.rooks b.kings b.knights st sq)
              (some { q := 0, qf := false, n0 := 0, n1 := 0,
                      n0f := false, n1f := false, rf := 0 }) with
          | none => none
          | some st =>
            if st.n0 < 4 ∧ st.n1f ∧ st.qf then
              some (cc_pos1 + st.q * 16 + (n0s.getD st.n0 0 + st.n1) * 96)
            else
              none

end BaseBoard

/-- The board produced by set_chess960_pos(0) from an empty board. -/
def c960board0 : BaseBoard :=
  match BaseBoard.clearBoard.setChess960Pos 0 with
  | .ok b => b
  | .error _ => BaseBoard.clearBoard

/-- Index of a Color as used for array subscripts (WHITE = 0, BLACK = 1). -/
def Color.toIdx : Color → Nat
  | WHITE => 0
  | BLACK => 1

/-- BB_PAWN_ATTACKS (BitboardNames.hpp), row 0 of the literal table.
Row 0 holds the DOWNWARD pawn attacks (the attacks of a pawn moving
towards rank 1), row 1 the upward ones. -/
def BB_PAWN_ATTACKS_ROW0 : List Nat := [
  0, 0, 0, 0, 0, 0, 0, 0,
  2, 5, 10, 20, 40, 80, 160, 64,
  512, 1280, 2560, 5120, 10240, 20480, 40960, 16384,
  131072, 327680, 655360, 1310720, 2621440, 5242880, 10485760, 4194304,
  33554432, 83886080, 167772160, 335544320, 671088640, 1342177280, 2684354560, 1073741824,
  8589934592, 21474836480, 42949672960, 85899345920, 171798691840, 343597383680, 687194767360, 274877906944,
  2199023255552, 5497558138880, 10995116277760, 21990232555520, 43980465111040, 87960930222080, 175921860444160, 70368744177664,
  562949953421312, 1407374883553280, 2814749767106560, 5629499534213120, 11258999068426240, 22517998136852480, 45035996273704960, 18014398509481984]

/-- BB_PAWN_ATTACKS (BitboardNames.hpp), row 1 of the literal table. -/
def BB_PAWN_ATTACKS_ROW1 : List Nat := [
  512, 1280, 2560, 5120, 10240, 20480, 40960, 16384,
  131072, 327680, 655360, 1310720, 2621440, 5242880, 10485760, 4194304,
  33554432, 83886080, 167772160, 335544320, 671088640, 1342177280, 2684354560, 1073741824,
  8589934592, 21474836480, 42949672960, 85899345920, 171798691840, 343597383680, 687194767360, 274877906944,
  2199023255552, 5497558138880, 10995116277760, 21990232555520, 43980465111040, 87960930222080, 175921860444160, 70368744177664,
  562949953421312, 1407374883553280, 2814749767106560, 5629499534213120, 11258999068426240, 22517998136852480, 45035996273704960, 18014398509481984,
  144115188075855872, 360287970189639680, 720575940379279360, 1441151880758558720, 2882303761517117440, 5764607523034234880, 11529215046068469760, 4611686018427387904,
  0, 0, 0, 0, 0, 0, 0, 0]

/-- BB_PAWN_ATTACKS[colour][square] (BitboardNames.hpp). -/
def BB_PAWN_ATTACKS (idx : Nat) (square : Nat) : Bitboard :=
  (if idx = 0 then BB_PAWN_ATTACKS_ROW0 else BB_PAWN_ATTACKS_ROW1).getD square 0

/-- scan_reversed (part_001 together with sqgen::SquareIterator of
part_002, Reverse direction): repeatedly yields 63 minus the
leading-zero count of the remaining mask and clears that bit.  The fuel
of 64 covers every 64-bit value. -/
def scanReversedAux : Nat → Bitboard → List Square
  | 0, _ => []
  | fuel + 1, bb =>
    if bb = 0 then []
    else
      let square := 63 - msb bb
      square :: scanReversedAux fuel (bb ^^^ BB_SQUARES square)

def scan_reversed (bb : Bitboard) : List Square := scanReversedAux 64 bb

/-- struct _BoardState (part_003): a full snapshot of every scalar and
bitboard field of the Board. -/
structure BoardState where
  occupied_w : Bitboard
  occupied_b : Bitboard
  pawns : Bitboard
  knights : Bitboard
  bishops : Bitboard
  rooks : Bitboard
  queens : Bitboard
  kings : Bitboard
  promoted : Bitboard
  occupied : Bitboard
  castling_rights : Bitboard
  halfmove_clock : Nat
  fullmove_number : Nat
  ep_square : Option Square
  turn : Color
deriving DecidableEq, Repr

/-- class Board (part_003): a BaseBoard plus the game-state fields and
the two stacks.  The C++ stacks grow at the back; the embedding keeps
the newest element at the HEAD of the lists (push_back becomes cons,
back becomes head), an order-reversal that is invisible to the
operations modelled here. -/
structure Board extends BaseBoard where
  turn : Color
  castling_rights : Bitboard
  ep_square : Option Square
  halfmove_clock : Nat
  fullmove_number : Nat
  chess960 : Bool
  move_stack : List Move
  stack : List BoardState
deriving DecidableEq, Repr

namespace Board

def occupied_co (b : Board) : Color → Bitboard := b.toBaseBoard.occupied_co

/-- The _BoardState constructor (part_003): snapshot every field. -/
def snapshot (board : Board) : BoardState where
  pawns := board.pawns
  knights := board.knights
  bishops := board.bishops
  rooks := board.rooks
  queens := board.queens
  kings := board.kings
  occupied_w := board.occupied_w
  occupied_b := board.occupied_b
  occupied := board.occupied
  promoted := board.promoted
  turn := board.turn
  castling_rights := board.castling_rights
  ep_square := board.ep_square
  halfmove_clock := board.halfmove_clock
  fullmove_number := board.fullmove_number

end Board

/-- _BoardState::restore (part_003): write every snapshotted field back
into the board. -/
def BoardState.restore (st : BoardState) (board : Board) : Board :=
  { board with
      pawns := st.pawns, knights := st.knights, bishops := st.bishops,
      rooks := st.rooks, queens := st.queens, kings := st.kings,
      occupied_w := st.occupied_w, occupied_b := st.occupied_b,
      occupied := st.occupied, promoted := st.promoted,
      turn := st.turn, castling_rights := st.castling_rights,
      ep_square := st.ep_square, halfmove_clock := st.halfmove_clock,
      fullmove_number := st.fullmove_number }

namespace Board

/-- The en-passant generator Board::EPIterator (part_003) with the
default masks from_mask = to_mask = BB_ALL, as a list of the yielded
moves.  The guard reproduces the C++ parse of
(!BB_SQUARES[ep] & to_mask): the logical negation binds before the
bitwise AND.  The capturers mask is the one of the source:
pawns & occupied_co[turn] & from_mask & BB_PAWN_ATTACKS[!turn][ep] &
BB_RANKS[turn ? 4 : 3]. -/
def epMoves (board : Board) : List Move :=
  match board.ep_square with
  | none => []
  | some ep =>
    if (if BB_SQUARES ep = 0 then (1 : Nat) else 0) &&& BB_ALL ≠ 0 then []
    else if BB_SQUARES ep &&& board.occupied ≠ 0 then []
    else
      let capturers :=
        board.pawns &&& board.occupied_co board.turn &&& BB_ALL &&&
          BB_PAWN_ATTACKS (Color.not board.turn).toIdx ep &&&
          BB_RANKS (if board.turn = BLACK then 4 else 3)
      (scan_reversed capturers).map (fun capturer => ⟨capturer, ep, none, none⟩)

end Board

/-- A position with en passant available: White to move, a white pawn
on e5 (bit 36), a black pawn that just advanced two squares to d5
(bit 35), and ep_square = d6 (bit 43), which is unoccupied. -/
def epScenario : Board where
  toBaseBoard := { BaseBoard.clearBoard with
    pawns := BB_SQUARES 36 ||| BB_SQUARES 35,
    occupied_w := BB_SQUARES 36,
    occupied_b := BB_SQUARES 35,
    occupied := BB_SQUARES 36 ||| BB_SQUARES 35 }
  turn := WHITE
  castling_rights := 0
  ep_square := some 43
  halfmove_clock := 0
  fullmove_number := 1
  chess960 := false
  move_stack := []
  stack := []

/-- The PieceType with a given enum value (PAWN = 1 .. KING = 6). -/
def PieceType.ofVal : Nat → Option PieceType
  | 1 => some .PAWN
  | 2 => some .KNIGHT
  | 3 => some .BISHOP
  | 4 => some .ROOK
  | 5 => some .QUEEN
  | 6 => some .KING
  | _ => none

namespace Board

/-- Modelled from the spec: Board::push is declared and used in the
source (gives_check, can_claim_threefold_repetition) but its definition
is not among the source files, so it is modelled from spec section 4.6,
steps 1 to 9: snapshot into the stack, append the move, reset the
halfmove clock on a capture or pawn move and increment it otherwise,
increment the fullmove number when Black moved, flip the side to move,
clear ep_square and set it to the skipped square on a two-square pawn
advance, relocate the mover (with promotion, capture removal, and the
en-passant captured pawn one rank behind the target), move the rook on
castling, and revoke the forfeited castling rights. -/
def push (board : Board) (move : Move) : Board :=
  let st := board.snapshot
  let us := board.turn
  let them := Color.not us
  let from_bb := BB_SQUARES move.from_square
  let to_bb := BB_SQUARES move.to_square
  let isPawnMove := board.pawns &&& from_bb ≠ 0
  let isEpCapture := isPawnMove ∧ board.ep_square = some move.to_square
  let isCapture := board.occupied_co them &&& to_bb ≠ 0 ∨ isEpCapture
  let newHalf := if isCapture ∨ isPawnMove then 0 else board.halfmove_clock + 1
  let newFull := if us = BLACK then board.fullmove_number + 1
                 else board.fullmove_number
  let newEp : Option Square :=
    if isPawnMove ∧ (move.to_square = move.from_square + 16 ∨
        move.from_square = move.to_square + 16) then
      some ((move.from_square + move.to_square) / 2)
    else none
  let moverAndBase := board.toBaseBoard.removePieceAt move.from_square
  let base1 :=
    if isEpCapture then
      (moverAndBase.2.removePieceAt
        (if us = WHITE then move.to_square - 8 else move.to_square + 8)).2
    else if board.occupied_co them &&& to_bb ≠ 0 then
      (moverAndBase.2.removePieceAt move.to_square).2
    else moverAndBase.2
  let base2 :=
    match moverAndBase.1 with
    | none => base1
    | some pt =>
      let newType := (move.promotion.bind PieceType.ofVal).getD pt
      base1.setPieceAtRaw move.to_square newType us move.promotion.isSome
  let isCastling := moverAndBase.1 = some PieceType.KING ∧
    (square_file move.from_square + 2 ≤ square_file move.to_square ∨
     square_file move.to_square + 2 ≤ square_file move.from_square)
  let base3 :=
    if isCastling then
      let rank := square_rank move.to_square
      if square_file move.to_square = 6 then
        ((base2.removePieceAt (rank * 8 + 7)).2).setPieceAtRaw
          (rank * 8 + 5) PieceType.ROOK us false
      else
        ((base2.removePieceAt (rank * 8 + 0)).2).setPieceAtRaw
          (rank * 8 + 3) PieceType.ROOK us false
    else base2
  let backrank := if us = WHITE then BB_RANKS 0 else BB_RANKS 7
  let newCr :=
    if moverAndBase.1 = some PieceType.KING then
      board.castling_rights &&& bbnot backrank &&& bbnot from_bb &&& bbnot to_bb
    else
      board.castling_rights &&& bbnot from_bb &&& bbnot to_bb
  { toBaseBoard := base3
    turn := them
    castling_rights := newCr
    ep_square := newEp
    halfmove_clock := newHalf
    fullmove_number := newFull
    chess960 := board.chess960
    move_stack := move :: board.move_stack
    stack := st :: board.stack }

/-- Modelled from the spec: Board::pop is declared and used in the
source but its definition is not among the source files; per spec
section 4.6 it restores the top snapshot, pops the move stack and
returns the move, and per spec section 6 it raises EmptyMoveStack when
no move was pushed. -/
def pop (board : Board) : Except String (Move × Board) :=
  match board.move_stack, board.stack with
  | move :: ms, st :: sts =>
    Except.ok (move, st.restore { board with move_stack := ms, stack := sts })
  | _, _ => Except.error "EmptyMoveStack"

end Board

/-- hscnt::HashCounter (StringTools.hpp), its unordered_map embedded as
an association list.  add reproduces the source faithfully: a key that
is already present is incremented, a NEW key is stored with value 0
(hash_map[key] = 0), so the stored value is one less than the number of
adds. -/
def hcAdd {α : Type} [DecidableEq α] : List (α × Nat) → α → List (α × Nat)
  | [], key => [(key, 0)]
  | (k, v) :: rest, key =>
    if k = key then (k, v + 1) :: rest else (k, v) :: hcAdd rest key

/-- hscnt::HashCounter::count (StringTools.hpp): the stored value, or 0
for an absent key. -/
def hcCount {α : Type} [DecidableEq α] : List (α × Nat) → α → Nat
  | [], _ => 0
  | (k, v) :: rest, key => if k = key then v else hcCount rest key

/-- Modelled from the spec: the transposition key of section 4.7 is the
tuple of all piece bitboards, the side to move, the effective castling
rights and the effective en-passant square; _transposition_key is used
by the source but not among the source files. -/
structure TranspositionKey where
  pawns : Bitboard
  knights : Bitboard
  bishops : Bitboard
  rooks : Bitboard
  queens : Bitboard
  kings : Bitboard
  occupied_w : Bitboard
  occupied_b : Bitboard
  turn : Color
  cleaned_castling : Bitboard
  effective_ep : Option Square
deriving DecidableEq, Repr

namespace Board

/-- Modelled from the spec: clean_castling_rights is called by the
source but not among the source files; the effective castling rights
keep only the rights whose rook square still carries a rook. -/
def clean_castling_rights (b : Board) : Bitboard :=
  b.castling_rights &&& b.rooks

/-- Modelled from the spec: the effective en-passant square of section
4.7 counts only if an en-passant capture is actually available, i.e.
per section 4.5 the ep square is unoccupied and a friendly pawn on the
capturing rank (rank index 4 for White, 3 for Black) attacks it. -/
def effectiveEp (b : Board) : Option Square :=
  match b.ep_square with
  | none => none
  | some ep =>
    if BB_SQUARES ep &&& b.occupied = 0 ∧
        b.pawns &&& b.occupied_co b.turn &&&
          BB_PAWN_ATTACKS (if b.turn = WHITE then 0 else 1) ep &&&
          BB_RANKS (if b.turn = WHITE then 4 else 3) ≠ 0 then
      some ep
    else none

/-- Modelled from the spec: _transposition_key as the tuple of section
4.7. -/
def transpositionKey (b : Board) : TranspositionKey where
  pawns := b.pawns
  knights := b.knights
  bishops := b.bishops
  rooks := b.rooks
  queens := b.queens
  kings := b.kings
  occupied_w := b.occupied_w
  occupied_b := b.occupied_b
  turn := b.turn
  cleaned_castling := b.clean_castling_rights
  effective_ep := b.effectiveEp

/-- Modelled from the spec: is_irreversible is called by the source but
not among the source files; per section 4.7 a move is irreversible if
it is a capture or pawn move, changes the (effective) castling rights,
or leaves an en-passant opportunity behind. -/
def is_irreversible (b : Board) (m : Move) : Bool :=
  decide (b.pawns &&& BB_SQUARES m.from_square ≠ 0) ||
  decide (b.occupied_co (Color.not b.turn) &&& BB_SQUARES m.to_square ≠ 0) ||
  decide (b.clean_castling_rights ≠ (b.push m).clean_castling_rights) ||
  decide (b.effectiveEp ≠ none)

/-- The position-counting loop of can_claim_threefold_repetition
(part_003): pop moves while the move stack is non-empty, breaking at an
irreversible move, and add each restored position to the counter.  In
the source the loop mutates the board and replays the switchyard
afterwards; the embedding recurses on the restored board, with the
move-stack length as fuel. -/
def countTranspositionsAux :
    Nat → Board → List (TranspositionKey × Nat) → List (TranspositionKey × Nat)
  | 0, _, transpositions => transpositions
  | fuel + 1, board, transpositions =>
    if board.move_stack.isEmpty then transpositions
    else
      match board.pop with
      | Except.error _ => transpositions
      | Except.ok (move, restored) =>
        if restored.is_irreversible move then transpositions
        else
          countTranspositionsAux fuel restored
            (hcAdd transpositions restored.transpositionKey)

/-- can_claim_threefold_repetition (part_003): count the current key,
unwind the stack counting keys up to the last irreversible move, claim
on count >= 3; otherwise probe each legal move for a key of count >= 2.
generate_legal_moves is not among the source files, so the probe list
lmoves is a parameter and the analysis quantifies over every possible
list. -/
def can_claim_threefold_repetition (board : Board) (lmoves : List Move) : Bool :=
  let transposition_key := board.transpositionKey
  let transpositions := hcAdd [] transposition_key
  let transpositions :=
    countTranspositionsAux board.move_stack.length board transpositions
  if 3 ≤ hcCount transpositions transposition_key then true
  else
    lmoves.any fun move =>
      decide (2 ≤ hcCount transpositions (board.push move).transpositionKey)

end Board

/-- The transposition keys of every position of the game: the current
one and each position reached by popping the whole move stack. -/
def historyKeysAux : Nat → Board → List TranspositionKey
  | 0, b => [b.transpositionKey]
  | fuel + 1, b =>
    b.transpositionKey ::
      match b.pop with
      | Except.ok (_, restored) => historyKeysAux fuel restored
      | Except.error _ => []

def historyKeys (b : Board) : List TranspositionKey :=
  historyKeysAux b.move_stack.length b

/-- The starting Board: reset placement, White to move, corner castling
rights, clocks at 0 and 1, empty stacks. -/
def startingBoard : Board where
  toBaseBoard := BaseBoard.resetBoard
  turn := WHITE
  castling_rights := BB_CORNERS
  ep_square := none
  halfmove_clock := 0
  fullmove_number := 1
  chess960 := false
  move_stack := []
  stack := []

/-- The starting position after Nf3 Nf6 Ng1 Ng8 Nf3 Nf6 Ng1 Ng8 (g1 is
square 6, f3 is 21, g8 is 62, f6 is 45 with a1 = 0, rank-major). -/
def repScenario : Board :=
  ((((((((startingBoard.push ⟨6, 21, none, none⟩).push
    ⟨62, 45, none, none⟩).push ⟨21, 6, none, none⟩).push
    ⟨45, 62, none, none⟩).push ⟨6, 21, none, none⟩).push
    ⟨62, 45, none, none⟩).push ⟨21, 6, none, none⟩).push
    ⟨45, 62, none, none⟩)

/-- The counter that can_claim_threefold_repetition builds on
repScenario. -/
def repTranspositions : List (TranspositionKey × Nat) :=
  Board.countTranspositionsAux repScenario.move_stack.length repScenario
    (hcAdd [] repScenario.transpositionKey)

/-- The inner while loop of _sliding_attacks (BitboardOps.hpp) for one
delta: step by delta, stop off the board or when wrapping around an
edge (Chebyshev distance of the step above 2), accumulate the square,
stop after an occupied square.  At most 7 steps fit on the board, so a
fuel of 64 is ample. -/
def slideWalk (occupied : Bitboard) (delta : Int) : Nat → Int → Bitboard
  | 0, _ => 0
  | fuel + 1, sq =>
    let sq2 := sq + delta
    if sq2 < 0 ∨ 64 ≤ sq2 ∨
        2 < square_distance sq2.toNat (sq2 - delta).toNat then 0
    else if occupied &&& BB_SQUARES sq2.toNat ≠ 0 then BB_SQUARES sq2.toNat
    else BB_SQUARES sq2.toNat ||| slideWalk occupied delta fuel sq2

/-- _sliding_attacks (BitboardOps.hpp): the union of the walks of every
delta. -/
def _sliding_attacks (square : Nat) (occupied : Bitboard)
    (deltas : List Int) : Bitboard :=
  deltas.foldl (fun attacks delta =>
    attacks ||| slideWalk occupied delta 64 square) 0

/-- The squares visited by the walk of one delta when nothing blocks:
the geometric ray. -/
def rayList (delta : Int) : Nat → Int → List Nat
  | 0, _ => []
  | fuel + 1, sq =>
    let sq2 := sq + delta
    if sq2 < 0 ∨ 64 ≤ sq2 ∨
        2 < square_distance sq2.toNat (sq2 - delta).toNat then []
    else sq2.toNat :: rayList delta fuel sq2

/-- _edges (BitboardOps.hpp): the board frame, less the rank and file of
the square. -/
def _edges (square : Nat) : Bitboard :=
  ((BB_RANK_1 ||| BB_RANK_8) &&& bbnot (BB_RANKS (square_rank square))) |||
    ((BB_FILE_A ||| BB_FILE_H) &&& bbnot (BB_FILES (square_file square)))

/-- One step of the carry-rippler iterator (CRGenerator of part_002):
subset = (subset - mask) & mask with 64-bit wraparound. -/
def cr_next (mask subset : Nat) : Nat :=
  ((2 ^ 64 + subset - mask) % 2 ^ 64) &&& mask

/-- The subsets yielded by CRRange (part_002): starting from 0, step
with cr_next, stop once the step returns to 0.  The number of subsets
of mask is at most mask + 1, so fuel mask + 2 never truncates. -/
def crAux (mask : Nat) : Nat → Nat → List Nat
  | 0, _ => []
  | fuel + 1, subset =>
    subset ::
      (if cr_next mask subset = 0 then []
       else crAux mask fuel (cr_next mask subset))

def _carry_rippler (mask : Nat) : List Nat := crAux mask (mask + 2) 0

/-- The mask entry of _attack_table (part_001) for one square:
_sliding_attacks(square, 0, deltas) & ~_edges(square). -/
def attackMask (deltas : List Int) (square : Nat) : Bitboard :=
  _sliding_attacks square 0 deltas &&& bbnot (_edges square)

/-- The attacks entry of _attack_table (part_001) for one square, its
unordered_map embedded as an association list: one entry per
carry-rippler subset of the mask, holding
_sliding_attacks(square, subset, deltas). -/
def attackTable (deltas : List Int) (square : Nat) :
    List (Bitboard × Bitboard) :=
  (_carry_rippler (attackMask deltas square)).map fun subset =>
    (subset, _sliding_attacks square subset deltas)

/-- The runtime lookup of the source (e.g. BaseBoard::attacks_mask,
part_003): BB_DIAG_ATTACKS[square].at(BB_DIAG_MASKS[square] & occupied),
and likewise for the rank and file tables. -/
def attackLookup (deltas : List Int) (square : Nat)
    (occupied : Bitboard) : Option Bitboard :=
  List.lookup (occupied &&& attackMask deltas square)
    (attackTable deltas square)

/-- _DIAG (BitboardOps.hpp). -/
def _DIAG : List Int := [-9, -7, 7, 9]

/-- _FILE (BitboardOps.hpp). -/
def _FILE : List Int := [-8, 8]

/-- _RANK (BitboardOps.hpp). -/
def _RANK : List Int := [-1, 1]

/-- The width-independent form of the carry-rippler step, used by the
proofs: the bits of mask not in (mask XOR subset) - 1. -/
def crStep (mask subset : Nat) : Nat :=
  mask ^^^ (mask &&& ((mask ^^^ subset) - 1))

/-! From here on: theorems about the embedded definitions. -/

/-! Bit-level helper lemmas used throughout the development. -/

theorem eq_iff_testBit {x y : Nat} : x = y ↔ ∀ i, x.testBit i = y.testBit i :=
  ⟨fun h i => by rw [h], Nat.eq_of_testBit_eq⟩

theorem eq_zero_iff_testBit {x : Nat} : x = 0 ↔ ∀ i, x.testBit i = false := by
  constructor
  · intro h i; subst h; exact Nat.zero_testBit i
  · intro h; exact Nat.eq_of_testBit_eq fun i => by rw [h i, Nat.zero_testBit]

theorem BB_SQUARES_eq (i : Nat) : BB_SQUARES i = 2 ^ i := Nat.one_shiftLeft i

theorem testBit_BB_SQUARES (i j : Nat) : (BB_SQUARES i).testBit j = decide (i = j) := by
  rw [BB_SQUARES_eq]; exact Nat.testBit_two_pow

theorem BB_ALL_eq : BB_ALL = 2 ^ 64 - 1 := by norm_num [BB_ALL]

theorem testBit_BB_ALL (i : Nat) : BB_ALL.testBit i = decide (i < 64) := by
  rw [BB_ALL_eq]; exact Nat.testBit_two_pow_sub_one 64 i

theorem testBit_bbnot (x : Nat) (i : Nat) :
    (bbnot x).testBit i = (decide (i < 64) ^^ x.testBit i) := by
  rw [bbnot, Nat.testBit_xor, testBit_BB_ALL]

theorem and_eq_zero_iff {a b : Nat} :
    a &&& b = 0 ↔ ∀ i, ¬(a.testBit i = true ∧ b.testBit i = true) := by
  rw [eq_zero_iff_testBit]
  constructor
  · intro h i hc
    have := h i
    rw [Nat.testBit_and, hc.1, hc.2] at this
    simp at this
  · intro h i
    rw [Nat.testBit_and]
    rcases ha : a.testBit i
    · simp
    · rcases hb : b.testBit i
      · simp
      · exact absurd ⟨ha, hb⟩ (h i)

theorem and_subset_iff {a b : Nat} :
    a &&& b = a ↔ ∀ i, a.testBit i = true → b.testBit i = true := by
  rw [eq_iff_testBit]
  constructor
  · intro h i ha
    have := h i
    rw [Nat.testBit_and, ha] at this
    simpa using this
  · intro h i
    rw [Nat.testBit_and]
    rcases ha : a.testBit i
    · simp
    · simp [h i ha]

theorem lt_two_pow_64_iff {x : Nat} :
    x < 2 ^ 64 ↔ ∀ i, 64 ≤ i → x.testBit i = false := by
  constructor
  · intro h i hi
    exact Nat.testBit_lt_two_pow (lt_of_lt_of_le h (Nat.pow_le_pow_right (by norm_num) hi))
  · intro h
    have hx : x = x % 2 ^ 64 := by
      apply Nat.eq_of_testBit_eq
      intro i
      rw [Nat.testBit_mod_two_pow]
      rcases Nat.lt_or_ge i 64 with hl | hl
      · simp [hl]
      · simp [h i hl, Nat.not_lt.2 hl]
    rw [hx]
    exact Nat.mod_lt _ (by norm_num)

theorem and_two_pow_ne_zero_iff {x i : Nat} :
    x &&& BB_SQUARES i ≠ 0 ↔ x.testBit i = true := by
  rw [Ne, eq_zero_iff_testBit]
  constructor
  · intro h
    by_contra hx
    apply h
    intro j
    rw [Nat.testBit_and, testBit_BB_SQUARES]
    by_cases hij : i = j
    · subst hij; simp_all
    · simp [hij]
  · intro h hc
    have := hc i
    rw [Nat.testBit_and, testBit_BB_SQUARES, h] at this
    simp at this

/-! The data-model invariants of the BaseBoard (spec section 3 and
section 8): the six piece-type bitboards are pairwise disjoint and
partition occupied; the two colour masks are disjoint and partition
occupied; promoted is a subset of occupied; and every field is an
unsigned 64-bit value. -/

namespace BaseBoard

theorem or_eq_iff_testBit {a b c : Nat} :
    a ||| b = c ↔ ∀ i, (a.testBit i || b.testBit i) = c.testBit i := by
  rw [eq_iff_testBit]
  constructor
  · intro h i; rw [← Nat.testBit_or]; exact h i
  · intro h i; rw [Nat.testBit_or]; exact h i

theorem inv_iff_invAt (b : BaseBoard) : b.Inv ↔ ∀ i, b.InvAt i := by
  constructor
  · rintro ⟨h1, h2, h3, h4, h5, h6, h7, h8, h9, h10, h11, h12, h13, h14, h15,
      hcov, hcd, hcc, hps, w1, w2, w3, w4, w5, w6, w7, w8, w9, w10⟩
    intro i
    refine ⟨and_eq_zero_iff.1 h1 i, and_eq_zero_iff.1 h2 i, and_eq_zero_iff.1 h3 i,
      and_eq_zero_iff.1 h4 i, and_eq_zero_iff.1 h5 i, and_eq_zero_iff.1 h6 i,
      and_eq_zero_iff.1 h7 i, and_eq_zero_iff.1 h8 i, and_eq_zero_iff.1 h9 i,
      and_eq_zero_iff.1 h10 i, and_eq_zero_iff.1 h11 i, and_eq_zero_iff.1 h12 i,
      and_eq_zero_iff.1 h13 i, and_eq_zero_iff.1 h14 i, and_eq_zero_iff.1 h15 i,
      ?_, and_eq_zero_iff.1 hcd i, ?_, ?_, ?_⟩
    · have := eq_iff_testBit.1 hcov i
      rw [Nat.testBit_or, Nat.testBit_or, Nat.testBit_or, Nat.testBit_or,
        Nat.testBit_or] at this
      rw [← this]
      simp [or_assoc]
    · have := eq_iff_testBit.1 hcc i
      rw [Nat.testBit_or] at this
      rw [← this]
      simp
    · exact fun hp => and_subset_iff.1 hps i hp
    · intro hi
      exact ⟨lt_two_pow_64_iff.1 w1 i hi, lt_two_pow_64_iff.1 w2 i hi,
        lt_two_pow_64_iff.1 w3 i hi, lt_two_pow_64_iff.1 w4 i hi,
        lt_two_pow_64_iff.1 w5 i hi, lt_two_pow_64_iff.1 w6 i hi,
        lt_two_pow_64_iff.1 w7 i hi, lt_two_pow_64_iff.1 w8 i hi,
        lt_two_pow_64_iff.1 w9 i hi, lt_two_pow_64_iff.1 w10 i hi⟩
  · intro h
    refine ⟨and_eq_zero_iff.2 fun i => (h i).1, and_eq_zero_iff.2 fun i => (h i).2.1,
      and_eq_zero_iff.2 fun i => (h i).2.2.1, and_eq_zero_iff.2 fun i => (h i).2.2.2.1,
      and_eq_zero_iff.2 fun i => (h i).2.2.2.2.1,
      and_eq_zero_iff.2 fun i => (h i).2.2.2.2.2.1,
      and_eq_zero_iff.2 fun i => (h i).2.2.2.2.2.2.1,
      and_eq_zero_iff.2 fun i => (h i).2.2.2.2.2.2.2.1,
      and_eq_zero_iff.2 fun i => (h i).2.2.2.2.2.2.2.2.1,
      and_eq_zero_iff.2 fun i => (h i).2.2.2.2.2.2.2.2.2.1,
      and_eq_zero_iff.2 fun i => (h i).2.2.2.2.2.2.2.2.2.2.1,
      and_eq_zero_iff.2 fun i => (h i).2.2.2.2.2.2.2.2.2.2.2.1,
      and_eq_zero_iff.2 fun i => (h i).2.2.2.2.2.2.2.2.2.2.2.2.1,
      and_eq_zero_iff.2 fun i => (h i).2.2.2.2.2.2.2.2.2.2.2.2.2.1,
      and_eq_zero_iff.2 fun i => (h i).2.2.2.2.2.2.2.2.2.2.2.2.2.2.1,
      ?_, ?_, ?_, ?_, ?_, ?_, ?_, ?_, ?_, ?_, ?_, ?_, ?_, ?_⟩
    · apply or_eq_iff_testBit.2
      intro i
      have := (h i).2.2.2.2.2.2.2.2.2.2.2.2.2.2.2.1
      simp only [Nat.testBit_or]
      rw [← Bool.coe_iff_coe]
      simp only [Bool.or_eq_true]
      tauto
    · exact and_eq_zero_iff.2 fun i => (h i).2.2.2.2.2.2.2.2.2.2.2.2.2.2.2.2.1
    · apply or_eq_iff_testBit.2
      intro i
      have := (h i).2.2.2.2.2.2.2.2.2.2.2.2.2.2.2.2.2.1
      rw [← Bool.coe_iff_coe]
      simp only [Bool.or_eq_true]
      tauto
    · exact and_subset_iff.2 fun i hb => (h i).2.2.2.2.2.2.2.2.2.2.2.2.2.2.2.2.2.2.1 hb
    all_goals
      apply lt_two_pow_64_iff.2
      intro i hi
      have hw := (h i).2.2.2.2.2.2.2.2.2.2.2.2.2.2.2.2.2.2.2 hi
      tauto

theorem testBit_false_of_and_two_pow_eq_zero {x i : Nat} (h : x &&& BB_SQUARES i = 0) :
    x.testBit i = false := by
  rcases hb : x.testBit i
  · rfl
  · exact absurd h (and_two_pow_ne_zero_iff.2 hb)

theorem piece_type_at_pawn {b : BaseBoard} {sq : Nat} (h : b.piece_type_at sq = some .PAWN) :
    b.occupied.testBit sq = true ∧ b.pawns.testBit sq = true := by
  simp only [piece_type_at] at h
  split_ifs at h with h1 h2 h3 h4 h5 h6 <;> simp_all [← and_two_pow_ne_zero_iff]

theorem piece_type_at_knight {b : BaseBoard} {sq : Nat} (h : b.piece_type_at sq = some .KNIGHT) :
    b.occupied.testBit sq = true ∧ b.knights.testBit sq = true := by
  simp only [piece_type_at] at h
  split_ifs at h with h1 h2 h3 h4 h5 h6 <;> simp_all [← and_two_pow_ne_zero_iff]

theorem piece_type_at_bishop {b : BaseBoard} {sq : Nat} (h : b.piece_type_at sq = some .BISHOP) :
    b.occupied.testBit sq = true ∧ b.bishops.testBit sq = true := by
  simp only [piece_type_at] at h
  split_ifs at h with h1 h2 h3 h4 h5 h6 <;> simp_all [← and_two_pow_ne_zero_iff]

theorem piece_type_at_rook {b : BaseBoard} {sq : Nat} (h : b.piece_type_at sq = some .ROOK) :
    b.occupied.testBit sq = true ∧ b.rooks.testBit sq = true := by
  simp only [piece_type_at] at h
  split_ifs at h with h1 h2 h3 h4 h5 h6 <;> simp_all [← and_two_pow_ne_zero_iff]

theorem piece_type_at_queen {b : BaseBoard} {sq : Nat} (h : b.piece_type_at sq = some .QUEEN) :
    b.occupied.testBit sq = true ∧ b.queens.testBit sq = true := by
  simp only [piece_type_at] at h
  split_ifs at h with h1 h2 h3 h4 h5 h6 <;> simp_all [← and_two_pow_ne_zero_iff]

theorem piece_type_at_king {b : BaseBoard} {sq : Nat} (h : b.piece_type_at sq = some .KING) :
    b.occupied.testBit sq = true ∧ b.pawns.testBit sq = false ∧
    b.knights.testBit sq = false ∧ b.bishops.testBit sq = false ∧
    b.rooks.testBit sq = false ∧ b.queens.testBit sq = false := by
  simp only [piece_type_at] at h
  split_ifs at h with h1 h2 h3 h4 h5 h6
  all_goals try simp at h
  exact ⟨and_two_pow_ne_zero_iff.1 h1,
      testBit_false_of_and_two_pow_eq_zero (not_ne_iff.1 h2),
      testBit_false_of_and_two_pow_eq_zero (not_ne_iff.1 h3),
      testBit_false_of_and_two_pow_eq_zero (not_ne_iff.1 h4),
      testBit_false_of_and_two_pow_eq_zero (not_ne_iff.1 h5),
      testBit_false_of_and_two_pow_eq_zero (not_ne_iff.1 h6)⟩

/-- Removal preserves the data-model invariants (part of claim C6). -/
theorem removePieceAt_inv (b : BaseBoard) (sq : Nat) (hsq : sq < 64) (hb : b.Inv) :
    ((b.removePieceAt sq).2).Inv := by
  have hbp := (inv_iff_invAt b).1 hb
  rcases hpt : b.piece_type_at sq with _ | pt
  · simp only [removePieceAt, hpt]
    exact hb
  · rw [inv_iff_invAt]
    intro i
    have hI := hbp i
    have hS := hbp sq
    cases pt
    case PAWN =>
      obtain ⟨hocc, hbit⟩ := piece_type_at_pawn hpt
      have heq : (b.removePieceAt sq).2 = { b with
          pawns := b.pawns ^^^ BB_SQUARES sq,
          occupied := b.occupied ^^^ BB_SQUARES sq,
          occupied_w := b.occupied_w &&& bbnot (BB_SQUARES sq),
          occupied_b := b.occupied_b &&& bbnot (BB_SQUARES sq),
          promoted := b.promoted &&& bbnot (BB_SQUARES sq) } := by
        simp only [removePieceAt, hpt]
      rw [heq]
      simp only [InvAt] at hI hS ⊢
      simp only [Nat.testBit_xor, Nat.testBit_and, testBit_bbnot, testBit_BB_SQUARES]
      by_cases hi : sq = i
      · subst hi
        have h64 : ¬ 64 ≤ sq := by omega
        have hdlt : decide (sq < 64) = true := by simp [hsq]
        obtain ⟨d1, d2, d3, d4, d5, d6, d7, d8, d9, d10, d11, d12, d13, d14, d15, hcov, hcd, hcc, hpr, hwd⟩ := hS
        have hf1 : Nat.testBit b.knights sq = false := by
          rcases hx : Nat.testBit b.knights sq
          · rfl
          · exact absurd ⟨hbit, hx⟩ d1
        have hf2 : Nat.testBit b.bishops sq = false := by
          rcases hx : Nat.testBit b.bishops sq
          · rfl
          · exact absurd ⟨hbit, hx⟩ d2
        have hf3 : Nat.testBit b.rooks sq = false := by
          rcases hx : Nat.testBit b.rooks sq
          · rfl
          · exact absurd ⟨hbit, hx⟩ d3
        have hf4 : Nat.testBit b.queens sq = false := by
          rcases hx : Nat.testBit b.queens sq
          · rfl
          · exact absurd ⟨hbit, hx⟩ d4
        have hf5 : Nat.testBit b.kings sq = false := by
          rcases hx : Nat.testBit b.kings sq
          · rfl
          · exact absurd ⟨hbit, hx⟩ d5
        simp [hbit, hocc, hf1, hf2, hf3, hf4, hf5, h64, hdlt]
      · have hd : decide (sq = i) = false := by simp [hi]
        simp only [hd, Bool.xor_false]
        by_cases h64 : 64 ≤ i
        · obtain ⟨W1, W2, W3, W4, W5, W6, W7, W8, W9, W10⟩ :=
            (hI.2.2.2.2.2.2.2.2.2.2.2.2.2.2.2.2.2.2.2) h64
          have hd2 : decide (i < 64) = false := by simp only [decide_eq_false_iff_not]; omega
          simp [hd2, W1, W2, W3, W4, W5, W6, W7, W8, W9, W10, h64]
        · have hd2 : decide (i < 64) = true := by simp only [decide_eq_true_eq]; omega
          simp only [hd2, Bool.and_true]
          exact hI
    case KNIGHT =>
      obtain ⟨hocc, hbit⟩ := piece_type_at_knight hpt
      have heq : (b.removePieceAt sq).2 = { b with
          knights := b.knights ^^^ BB_SQUARES sq,
          occupied := b.occupied ^^^ BB_SQUARES sq,
          occupied_w := b.occupied_w &&& bbnot (BB_SQUARES sq),
          occupied_b := b.occupied_b &&& bbnot (BB_SQUARES sq),
          promoted := b.promoted &&& bbnot (BB_SQUARES sq) } := by
        simp only [removePieceAt, hpt]
      rw [heq]
      simp only [InvAt] at hI hS ⊢
      simp only [Nat.testBit_xor, Nat.testBit_and, testBit_bbnot, testBit_BB_SQUARES]
      by_cases hi : sq = i
      · subst hi
        have h64 : ¬ 64 ≤ sq := by omega
        have hdlt : decide (sq < 64) = true := by simp [hsq]
        obtain ⟨d1, d2, d3, d4, d5, d6, d7, d8, d9, d10, d11, d12, d13, d14, d15, hcov, hcd, hcc, hpr, hwd⟩ := hS
        have hf0 : Nat.testBit b.pawns sq = false := by
          rcases hx : Nat.testBit b.pawns sq
          · rfl
          · exact absurd ⟨hx, hbit⟩ d1
        have hf2 : Nat.testBit b.bishops sq = false := by
          rcases hx : Nat.testBit b.bishops sq
          · rfl
          · exact absurd ⟨hbit, hx⟩ d6
        have hf3 : Nat.testBit b.rooks sq = false := by
          rcases hx : Nat.testBit b.rooks sq
          · rfl
          · exact absurd ⟨hbit, hx⟩ d7
        have hf4 : Nat.testBit b.queens sq = false := by
          rcases hx : Nat.testBit b.queens sq
          · rfl
          · exact absurd ⟨hbit, hx⟩ d8
        have hf5 : Nat.testBit b.kings sq = false := by
          rcases hx : Nat.testBit b.kings sq
          · rfl
          · exact absurd ⟨hbit, hx⟩ d9
        simp [hbit, hocc, hf0, hf2, hf3, hf4, hf5, h64, hdlt]
      · have hd : decide (sq = i) = false := by simp [hi]
        simp only [hd, Bool.xor_false]
        by_cases h64 : 64 ≤ i
        · obtain ⟨W1, W2, W3, W4, W5, W6, W7, W8, W9, W10⟩ :=
            (hI.2.2.2.2.2.2.2.2.2.2.2.2.2.2.2.2.2.2.2) h64
          have hd2 : decide (i < 64) = false := by simp only [decide_eq_false_iff_not]; omega
          simp [hd2, W1, W2, W3, W4, W5, W6, W7, W8, W9, W10, h64]
        · have hd2 : decide (i < 64) = true := by simp only [decide_eq_true_eq]; omega
          simp only [hd2, Bool.and_true]
          exact hI
    case BISHOP =>
      obtain ⟨hocc, hbit⟩ := piece_type_at_bishop hpt
      have heq : (b.removePieceAt sq).2 = { b with
          bishops := b.bishops ^^^ BB_SQUARES sq,
          occupied := b.occupied ^^^ BB_SQUARES sq,
          occupied_w := b.occupied_w &&& bbnot (BB_SQUARES sq),
          occupied_b := b.occupied_b &&& bbnot (BB_SQUARES sq),
          promoted := b.promoted &&& bbnot (BB_SQUARES sq) } := by
        simp only [removePieceAt, hpt]
      rw [heq]
      simp only [InvAt] at hI hS ⊢
      simp only [Nat.testBit_xor, Nat.testBit_and, testBit_bbnot, testBit_BB_SQUARES]
      by_cases hi : sq = i
      · subst hi
        have h64 : ¬ 64 ≤ sq := by omega
        have hdlt : decide (sq < 64) = true := by simp [hsq]
        obtain ⟨d1, d2, d3, d4, d5, d6, d7, d8, d9, d10, d11, d12, d13, d14, d15, hcov, hcd, hcc, hpr, hwd⟩ := hS
        have hf0 : Nat.testBit b.pawns sq = false := by
          rcases hx : Nat.testBit b.pawns sq
          · rfl
          · exact absurd ⟨hx, hbit⟩ d2
        have hf1 : Nat.testBit b.knights sq = false := by
          rcases hx : Nat.testBit b.knights sq
          · rfl
          · exact absurd ⟨hx, hbit⟩ d6
        have hf3 : Nat.testBit b.rooks sq = false := by
          rcases hx : Nat.testBit b.rooks sq
          · rfl
          · exact absurd ⟨hbit, hx⟩ d10
        have hf4 : Nat.testBit b.queens sq = false := by
          rcases hx : Nat.testBit b.queens sq
          · rfl
          · exact absurd ⟨hbit, hx⟩ d11
        have hf5 : Nat.testBit b.kings sq = false := by
          rcases hx : Nat.testBit b.kings sq
          · rfl
          · exact absurd ⟨hbit, hx⟩ d12
        simp [hbit, hocc, hf0, hf1, hf3, hf4, hf5, h64, hdlt]
      · have hd : decide (sq = i) = false := by simp [hi]
        simp only [hd, Bool.xor_false]
        by_cases h64 : 64 ≤ i
        · obtain ⟨W1, W2, W3, W4, W5, W6, W7, W8, W9, W10⟩ :=
            (hI.2.2.2.2.2.2.2.2.2.2.2.2.2.2.2.2.2.2.2) h64
          have hd2 : decide (i < 64) = false := by simp only [decide_eq_false_iff_not]; omega
          simp [hd2, W1, W2, W3, W4, W5, W6, W7, W8, W9, W10, h64]
        · have hd2 : decide (i < 64) = true := by simp only [decide_eq_true_eq]; omega
          simp only [hd2, Bool.and_true]
          exact hI
    case ROOK =>
      obtain ⟨hocc, hbit⟩ := piece_type_at_rook hpt
      have heq : (b.removePieceAt sq).2 = { b with
          rooks := b.rooks ^^^ BB_SQUARES sq,
          occupied := b.occupied ^^^ BB_SQUARES sq,
          occupied_w := b.occupied_w &&& bbnot (BB_SQUARES sq),
          occupied_b := b.occupied_b &&& bbnot (BB_SQUARES sq),
          promoted := b.promoted &&& bbnot (BB_SQUARES sq) } := by
        simp only [removePieceAt, hpt]
      rw [heq]
      simp only [InvAt] at hI hS ⊢
      simp only [Nat.testBit_xor, Nat.testBit_and, testBit_bbnot, testBit_BB_SQUARES]
      by_cases hi : sq = i
      · subst hi
        have h64 : ¬ 64 ≤ sq := by omega
        have hdlt : decide (sq < 64) = true := by simp [hsq]
        obtain ⟨d1, d2, d3, d4, d5, d6, d7, d8, d9, d10, d11, d12, d13, d14, d15, hcov, hcd, hcc, hpr, hwd⟩ := hS
        have hf0 : Nat.testBit b.pawns sq = false := by
          rcases hx : Nat.testBit b.pawns sq
          · rfl
          · exact absurd ⟨hx, hbit⟩ d3
        have hf1 : Nat.testBit b.knights sq = false := by
          rcases hx : Nat.testBit b.knights sq
          · rfl
          · exact absurd ⟨hx, hbit⟩ d7
        have hf2 : Nat.testBit b.bishops sq = false := by
          rcases hx : Nat.testBit b.bishops sq
          · rfl
          · exact absurd ⟨hx, hbit⟩ d10
        have hf4 : Nat.testBit b.queens sq = false := by
          rcases hx : Nat.testBit b.queens sq
          · rfl
          · exact absurd ⟨hbit, hx⟩ d13
        have hf5 : Nat.testBit b.kings sq = false := by
          rcases hx : Nat.testBit b.kings sq
          · rfl
          · exact absurd ⟨hbit, hx⟩ d14
        simp [hbit, hocc, hf0, hf1, hf2, hf4, hf5, h64, hdlt]
      · have hd : decide (sq = i) = false := by simp [hi]
        simp only [hd, Bool.xor_false]
        by_cases h64 : 64 ≤ i
        · obtain ⟨W1, W2, W3, W4, W5, W6, W7, W8, W9, W10⟩ :=
            (hI.2.2.2.2.2.2.2.2.2.2.2.2.2.2.2.2.2.2.2) h64
          have hd2 : decide (i < 64) = false := by simp only [decide_eq_false_iff_not]; omega
          simp [hd2, W1, W2, W3, W4, W5, W6, W7, W8, W9, W10, h64]
        · have hd2 : decide (i < 64) = true := by simp only [decide_eq_true_eq]; omega
          simp only [hd2, Bool.and_true]
          exact hI
    case QUEEN =>
      obtain ⟨hocc, hbit⟩ := piece_type_at_queen hpt
      have heq : (b.removePieceAt sq).2 = { b with
          queens := b.queens ^^^ BB_SQUARES sq,
          occupied := b.occupied ^^^ BB_SQUARES sq,
          occupied_w := b.occupied_w &&& bbnot (BB_SQUARES sq),
          occupied_b := b.occupied_b &&& bbnot (BB_SQUARES sq),
          promoted := b.promoted &&& bbnot (BB_SQUARES sq) } := by
        simp only [removePieceAt, hpt]
      rw [heq]
      simp only [InvAt] at hI hS ⊢
      simp only [Nat.testBit_xor, Nat.testBit_and, testBit_bbnot, testBit_BB_SQUARES]
      by_cases hi : sq = i
      · subst hi
        have h64 : ¬ 64 ≤ sq := by omega
        have hdlt : decide (sq < 64) = true := by simp [hsq]
        obtain ⟨d1, d2, d3, d4, d5, d6, d7, d8, d9, d10, d11, d12, d13, d14, d15, hcov, hcd, hcc, hpr, hwd⟩ := hS
        have hf0 : Nat.testBit b.pawns sq = false := by
          rcases hx : Nat.testBit b.pawns sq
          · rfl
          · exact absurd ⟨hx, hbit⟩ d4
        have hf1 : Nat.testBit b.knights sq = false := by
          rcases hx : Nat.testBit b.knights sq
          · rfl
          · exact absurd ⟨hx, hbit⟩ d8
        have hf2 : Nat.testBit b.bishops sq = false := by
          rcases hx : Nat.testBit b.bishops sq
          · rfl
          · exact absurd ⟨hx, hbit⟩ d11
        have hf3 : Nat.testBit b.rooks sq = false := by
          rcases hx : Nat.testBit b.rooks sq
          · rfl
          · exact absurd ⟨hx, hbit⟩ d13
        have hf5 : Nat.testBit b.kings sq = false := by
          rcases hx : Nat.testBit b.kings sq
          · rfl
          · exact absurd ⟨hbit, hx⟩ d15
        simp [hbit, hocc, hf0, hf1, hf2, hf3, hf5, h64, hdlt]
      · have hd : decide (sq = i) = false := by simp [hi]
        simp only [hd, Bool.xor_false]
        by_cases h64 : 64 ≤ i
        · obtain ⟨W1, W2, W3, W4, W5, W6, W7, W8, W9, W10⟩ :=
            (hI.2.2.2.2.2.2.2.2.2.2.2.2.2.2.2.2.2.2.2) h64
          have hd2 : decide (i < 64) = false := by simp only [decide_eq_false_iff_not]; omega
          simp [hd2, W1, W2, W3, W4, W5, W6, W7, W8, W9, W10, h64]
        · have hd2 : decide (i < 64) = true := by simp only [decide_eq_true_eq]; omega
          simp only [hd2, Bool.and_true]
          exact hI
    case KING =>
      obtain ⟨hocc, hp1, hp2, hp3, hp4, hp5⟩ := piece_type_at_king hpt
      obtain ⟨d1, d2, d3, d4, d5, d6, d7, d8, d9, d10, d11, d12, d13, d14, d15, hcov, hcd, hcc, hpr, hwd⟩ := hS
      have hbit : Nat.testBit b.kings sq = true := by
        rcases hcov.2 hocc with hx|hx|hx|hx|hx|hx
        · rw [hp1] at hx; exact absurd hx (by simp)
        · rw [hp2] at hx; exact absurd hx (by simp)
        · rw [hp3] at hx; exact absurd hx (by simp)
        · rw [hp4] at hx; exact absurd hx (by simp)
        · rw [hp5] at hx; exact absurd hx (by simp)
        · exact hx
      have heq : (b.removePieceAt sq).2 = { b with
          kings := b.kings ^^^ BB_SQUARES sq,
          occupied := b.occupied ^^^ BB_SQUARES sq,
          occupied_w := b.occupied_w &&& bbnot (BB_SQUARES sq),
          occupied_b := b.occupied_b &&& bbnot (BB_SQUARES sq),
          promoted := b.promoted &&& bbnot (BB_SQUARES sq) } := by
        simp only [removePieceAt, hpt]
      rw [heq]
      simp only [InvAt] at hI ⊢
      simp only [Nat.testBit_xor, Nat.testBit_and, testBit_bbnot, testBit_BB_SQUARES]
      by_cases hi : sq = i
      · subst hi
        have h64 : ¬ 64 ≤ sq := by omega
        have hdlt : decide (sq < 64) = true := by simp [hsq]
        simp [hbit, hocc, hp1, hp2, hp3, hp4, hp5, h64, hdlt]
      · have hd : decide (sq = i) = false := by simp [hi]
        simp only [hd, Bool.xor_false]
        by_cases h64 : 64 ≤ i
        · obtain ⟨W1, W2, W3, W4, W5, W6, W7, W8, W9, W10⟩ :=
            (hI.2.2.2.2.2.2.2.2.2.2.2.2.2.2.2.2.2.2.2) h64
          have hd2 : decide (i < 64) = false := by simp only [decide_eq_false_iff_not]; omega
          simp [hd2, W1, W2, W3, W4, W5, W6, W7, W8, W9, W10, h64]
        · have hd2 : decide (i < 64) = true := by simp only [decide_eq_true_eq]; omega
          simp only [hd2, Bool.and_true]
          exact hI

theorem piece_type_at_none_bits {b : BaseBoard} {sq : Nat}
    (h : b.piece_type_at sq = none) : b.occupied.testBit sq = false := by
  simp only [piece_type_at] at h
  split_ifs at h with h1 h2 h3 h4 h5 h6
  exact testBit_false_of_and_two_pow_eq_zero h1

/-- After _remove_piece_at the square is vacant in every bitboard. -/
theorem removePieceAt_clears (b : BaseBoard) (sq : Nat) (hsq : sq < 64) (hb : b.Inv) :
    ((b.removePieceAt sq).2).pawns.testBit sq = false ∧
    ((b.removePieceAt sq).2).knights.testBit sq = false ∧
    ((b.removePieceAt sq).2).bishops.testBit sq = false ∧
    ((b.removePieceAt sq).2).rooks.testBit sq = false ∧
    ((b.removePieceAt sq).2).queens.testBit sq = false ∧
    ((b.removePieceAt sq).2).kings.testBit sq = false ∧
    ((b.removePieceAt sq).2).occupied_w.testBit sq = false ∧
    ((b.removePieceAt sq).2).occupied_b.testBit sq = false ∧
    ((b.removePieceAt sq).2).promoted.testBit sq = false ∧
    ((b.removePieceAt sq).2).occupied.testBit sq = false := by
  have hS := (inv_iff_invAt b).1 hb sq
  simp only [InvAt] at hS
  rcases hpt : b.piece_type_at sq with _ | pt
  · have hocc := piece_type_at_none_bits hpt
    simp only [removePieceAt, hpt]
    obtain ⟨d1, d2, d3, d4, d5, d6, d7, d8, d9, d10, d11, d12, d13, d14, d15, hcov, hcd, hcc, hpr, hwd⟩ := hS
    have hnp : ¬ Nat.testBit b.occupied sq = true := by simp [hocc]
    refine ⟨?_, ?_, ?_, ?_, ?_, ?_, ?_, ?_, ?_, hocc⟩
    · rcases hx : Nat.testBit b.pawns sq
      · rfl
      · exact absurd (hcov.1 (Or.inl hx)) hnp
    · rcases hx : Nat.testBit b.knights sq
      · rfl
      · exact absurd (hcov.1 (Or.inr (Or.inl hx))) hnp
    · rcases hx : Nat.testBit b.bishops sq
      · rfl
      · exact absurd (hcov.1 (Or.inr (Or.inr (Or.inl hx)))) hnp
    · rcases hx : Nat.testBit b.rooks sq
      · rfl
      · exact absurd (hcov.1 (Or.inr (Or.inr (Or.inr (Or.inl hx))))) hnp
    · rcases hx : Nat.testBit b.queens sq
      · rfl
      · exact absurd (hcov.1 (Or.inr (Or.inr (Or.inr (Or.inr (Or.inl hx)))))) hnp
    · rcases hx : Nat.testBit b.kings sq
      · rfl
      · exact absurd (hcov.1 (Or.inr (Or.inr (Or.inr (Or.inr (Or.inr hx)))))) hnp
    · rcases hx : Nat.testBit b.occupied_w sq
      · rfl
      · exact absurd (hcc.1 (Or.inl hx)) hnp
    · rcases hx : Nat.testBit b.occupied_b sq
      · rfl
      · exact absurd (hcc.1 (Or.inr hx)) hnp
    · rcases hx : Nat.testBit b.promoted sq
      · rfl
      · exact absurd (hpr hx) hnp
  · cases pt
    case PAWN =>
      obtain ⟨hocc, hbit⟩ := piece_type_at_pawn hpt
      have heq : (b.removePieceAt sq).2 = { b with
          pawns := b.pawns ^^^ BB_SQUARES sq,
          occupied := b.occupied ^^^ BB_SQUARES sq,
          occupied_w := b.occupied_w &&& bbnot (BB_SQUARES sq),
          occupied_b := b.occupied_b &&& bbnot (BB_SQUARES sq),
          promoted := b.promoted &&& bbnot (BB_SQUARES sq) } := by
        simp only [removePieceAt, hpt]
      rw [heq]
      · simp only [Nat.testBit_xor, Nat.testBit_and, testBit_bbnot, testBit_BB_SQUARES]
        have hdlt : decide (sq < 64) = true := by simp [hsq]
        obtain ⟨d1, d2, d3, d4, d5, d6, d7, d8, d9, d10, d11, d12, d13, d14, d15, hcov, hcd, hcc, hpr, hwd⟩ := hS
        have hf1 : Nat.testBit b.knights sq = false := by
          rcases hx : Nat.testBit b.knights sq
          · rfl
          · exact absurd ⟨hbit, hx⟩ d1
        have hf2 : Nat.testBit b.bishops sq = false := by
          rcases hx : Nat.testBit b.bishops sq
          · rfl
          · exact absurd ⟨hbit, hx⟩ d2
        have hf3 : Nat.testBit b.rooks sq = false := by
          rcases hx : Nat.testBit b.rooks sq
          · rfl
          · exact absurd ⟨hbit, hx⟩ d3
        have hf4 : Nat.testBit b.queens sq = false := by
          rcases hx : Nat.testBit b.queens sq
          · rfl
          · exact absurd ⟨hbit, hx⟩ d4
        have hf5 : Nat.testBit b.kings sq = false := by
          rcases hx : Nat.testBit b.kings sq
          · rfl
          · exact absurd ⟨hbit, hx⟩ d5
        simp [hbit, hocc, hf1, hf2, hf3, hf4, hf5, hdlt]
    case KNIGHT =>
      obtain ⟨hocc, hbit⟩ := piece_type_at_knight hpt
      have heq : (b.removePieceAt sq).2 = { b with
          knights := b.knights ^^^ BB_SQUARES sq,
          occupied := b.occupied ^^^ BB_SQUARES sq,
          occupied_w := b.occupied_w &&& bbnot (BB_SQUARES sq),
          occupied_b := b.occupied_b &&& bbnot (BB_SQUARES sq),
          promoted := b.promoted &&& bbnot (BB_SQUARES sq) } := by
        simp only [removePieceAt, hpt]
      rw [heq]
      · simp only [Nat.testBit_xor, Nat.testBit_and, testBit_bbnot, testBit_BB_SQUARES]
        have hdlt : decide (sq < 64) = true := by simp [hsq]
        obtain ⟨d1, d2, d3, d4, d5, d6, d7, d8, d9, d10, d11, d12, d13, d14, d15, hcov, hcd, hcc, hpr, hwd⟩ := hS
        have hf0 : Nat.testBit b.pawns sq = false := by
          rcases hx : Nat.testBit b.pawns sq
          · rfl
          · exact absurd ⟨hx, hbit⟩ d1
        have hf2 : Nat.testBit b.bishops sq = false := by
          rcases hx : Nat.testBit b.bishops sq
          · rfl
          · exact absurd ⟨hbit, hx⟩ d6
        have hf3 : Nat.testBit b.rooks sq = false := by
          rcases hx : Nat.testBit b.rooks sq
          · rfl
          · exact absurd ⟨hbit, hx⟩ d7
        have hf4 : Nat.testBit b.queens sq = false := by
          rcases hx : Nat.testBit b.queens sq
          · rfl
          · exact absurd ⟨hbit, hx⟩ d8
        have hf5 : Nat.testBit b.kings sq = false := by
          rcases hx : Nat.testBit b.kings sq
          · rfl
          · exact absurd ⟨hbit, hx⟩ d9
        simp [hbit, hocc, hf0, hf2, hf3, hf4, hf5, hdlt]
    case BISHOP =>
      obtain ⟨hocc, hbit⟩ := piece_type_at_bishop hpt
      have heq : (b.removePieceAt sq).2 = { b with
          bishops := b.bishops ^^^ BB_SQUARES sq,
          occupied := b.occupied ^^^ BB_SQUARES sq,
          occupied_w := b.occupied_w &&& bbnot (BB_SQUARES sq),
          occupied_b := b.occupied_b &&& bbnot (BB_SQUARES sq),
          promoted := b.promoted &&& bbnot (BB_SQUARES sq) } := by
        simp only [removePieceAt, hpt]
      rw [heq]
      · simp only [Nat.testBit_xor, Nat.testBit_and, testBit_bbnot, testBit_BB_SQUARES]
        have hdlt : decide (sq < 64) = true := by simp [hsq]
        obtain ⟨d1, d2, d3, d4, d5, d6, d7, d8, d9, d10, d11, d12, d13, d14, d15, hcov, hcd, hcc, hpr, hwd⟩ := hS
        have hf0 : Nat.testBit b.pawns sq = false := by
          rcases hx : Nat.testBit b.pawns sq
          · rfl
          · exact absurd ⟨hx, hbit⟩ d2
        have hf1 : Nat.testBit b.knights sq = false := by
          rcases hx : Nat.testBit b.knights sq
          · rfl
          · exact absurd ⟨hx, hbit⟩ d6
        have hf3 : Nat.testBit b.rooks sq = false := by
          rcases hx : Nat.testBit b.rooks sq
          · rfl
          · exact absurd ⟨hbit, hx⟩ d10
        have hf4 : Nat.testBit b.queens sq = false := by
          rcases hx : Nat.testBit b.queens sq
          · rfl
          · exact absurd ⟨hbit, hx⟩ d11
        have hf5 : Nat.testBit b.kings sq = false := by
          rcases hx : Nat.testBit b.kings sq
          · rfl
          · exact absurd ⟨hbit, hx⟩ d12
        simp [hbit, hocc, hf0, hf1, hf3, hf4, hf5, hdlt]
    case ROOK =>
      obtain ⟨hocc, hbit⟩ := piece_type_at_rook hpt
      have heq : (b.removePieceAt sq).2 = { b with
          rooks := b.rooks ^^^ BB_SQUARES sq,
          occupied := b.occupied ^^^ BB_SQUARES sq,
          occupied_w := b.occupied_w &&& bbnot (BB_SQUARES sq),
          occupied_b := b.occupied_b &&& bbnot (BB_SQUARES sq),
          promoted := b.promoted &&& bbnot (BB_SQUARES sq) } := by
        simp only [removePieceAt, hpt]
      rw [heq]
      · simp only [Nat.testBit_xor, Nat.testBit_and, testBit_bbnot, testBit_BB_SQUARES]
        have hdlt : decide (sq < 64) = true := by simp [hsq]
        obtain ⟨d1, d2, d3, d4, d5, d6, d7, d8, d9, d10, d11, d12, d13, d14, d15, hcov, hcd, hcc, hpr, hwd⟩ := hS
        have hf0 : Nat.testBit b.pawns sq = false := by
          rcases hx : Nat.testBit b.pawns sq
          · rfl
          · exact absurd ⟨hx, hbit⟩ d3
        have hf1 : Nat.testBit b.knights sq = false := by
          rcases hx : Nat.testBit b.knights sq
          · rfl
          · exact absurd ⟨hx, hbit⟩ d7
        have hf2 : Nat.testBit b.bishops sq = false := by
          rcases hx : Nat.testBit b.bishops sq
          · rfl
          · exact absurd ⟨hx, hbit⟩ d10
        have hf4 : Nat.testBit b.queens sq = false := by
          rcases hx : Nat.testBit b.queens sq
          · rfl
          · exact absurd ⟨hbit, hx⟩ d13
        have hf5 : Nat.testBit b.kings sq = false := by
          rcases hx : Nat.testBit b.kings sq
          · rfl
          · exact absurd ⟨hbit, hx⟩ d14
        simp [hbit, hocc, hf0, hf1, hf2, hf4, hf5, hdlt]
    case QUEEN =>
      obtain ⟨hocc, hbit⟩ := piece_type_at_queen hpt
      have heq : (b.removePieceAt sq).2 = { b with
          queens := b.queens ^^^ BB_SQUARES sq,
          occupied := b.occupied ^^^ BB_SQUARES sq,
          occupied_w := b.occupied_w &&& bbnot (BB_SQUARES sq),
          occupied_b := b.occupied_b &&& bbnot (BB_SQUARES sq),
          promoted := b.promoted &&& bbnot (BB_SQUARES sq) } := by
        simp only [removePieceAt, hpt]
      rw [heq]
      · simp only [Nat.testBit_xor, Nat.testBit_and, testBit_bbnot, testBit_BB_SQUARES]
        have hdlt : decide (sq < 64) = true := by simp [hsq]
        obtain ⟨d1, d2, d3, d4, d5, d6, d7, d8, d9, d10, d11, d12, d13, d14, d15, hcov, hcd, hcc, hpr, hwd⟩ := hS
        have hf0 : Nat.testBit b.pawns sq = false := by
          rcases hx : Nat.testBit b.pawns sq
          · rfl
          · exact absurd ⟨hx, hbit⟩ d4
        have hf1 : Nat.testBit b.knights sq = false := by
          rcases hx : Nat.testBit b.knights sq
          · rfl
          · exact absurd ⟨hx, hbit⟩ d8
        have hf2 : Nat.testBit b.bishops sq = false := by
          rcases hx : Nat.testBit b.bishops sq
          · rfl
          · exact absurd ⟨hx, hbit⟩ d11
        have hf3 : Nat.testBit b.rooks sq = false := by
          rcases hx : Nat.testBit b.rooks sq
          · rfl
          · exact absurd ⟨hx, hbit⟩ d13
        have hf5 : Nat.testBit b.kings sq = false := by
          rcases hx : Nat.testBit b.kings sq
          · rfl
          · exact absurd ⟨hbit, hx⟩ d15
        simp [hbit, hocc, hf0, hf1, hf2, hf3, hf5, hdlt]
    case KING =>
      obtain ⟨hocc, hp1, hp2, hp3, hp4, hp5⟩ := piece_type_at_king hpt
      obtain ⟨d1, d2, d3, d4, d5, d6, d7, d8, d9, d10, d11, d12, d13, d14, d15, hcov, hcd, hcc, hpr, hwd⟩ := hS
      have heq : (b.removePieceAt sq).2 = { b with
          kings := b.kings ^^^ BB_SQUARES sq,
          occupied := b.occupied ^^^ BB_SQUARES sq,
          occupied_w := b.occupied_w &&& bbnot (BB_SQUARES sq),
          occupied_b := b.occupied_b &&& bbnot (BB_SQUARES sq),
          promoted := b.promoted &&& bbnot (BB_SQUARES sq) } := by
        simp only [removePieceAt, hpt]
      rw [heq]
      · simp only [Nat.testBit_xor, Nat.testBit_and, testBit_bbnot, testBit_BB_SQUARES]
        have hdlt : decide (sq < 64) = true := by simp [hsq]
        have hbit : Nat.testBit b.kings sq = true := by
          rcases hcov.2 hocc with hx|hx|hx|hx|hx|hx
          · rw [hp1] at hx; exact absurd hx (by simp)
          · rw [hp2] at hx; exact absurd hx (by simp)
          · rw [hp3] at hx; exact absurd hx (by simp)
          · rw [hp4] at hx; exact absurd hx (by simp)
          · rw [hp5] at hx; exact absurd hx (by simp)
          · exact hx
        simp [hocc, hp1, hp2, hp3, hp4, hp5, hbit, hdlt]

/-- _set_piece_at preserves the data-model invariants (part of claim C6). -/
theorem setPieceAtRaw_inv (b : BaseBoard) (sq : Nat) (pt : PieceType) (c : Color)
    (wasp : Bool) (hsq : sq < 64) (hb : b.Inv) :
    (b.setPieceAtRaw sq pt c wasp).Inv := by
  obtain ⟨c1, c2, c3, c4, c5, c6, c7, c8, c9, c10⟩ := removePieceAt_clears b sq hsq hb
  have h1p := (inv_iff_invAt ((b.removePieceAt sq).2)).1 (removePieceAt_inv b sq hsq hb)
  cases pt <;> cases c <;> cases wasp <;>
  · rw [inv_iff_invAt]
    intro i
    have hI := h1p i
    simp only [InvAt] at hI
    simp only [setPieceAtRaw, InvAt, Bool.false_eq_true, eq_self_iff_true, if_false, if_true]
    simp only [Nat.testBit_or, Nat.testBit_xor, testBit_BB_SQUARES]
    by_cases hi : sq = i
    · subst hi
      have h64 : ¬ 64 ≤ sq := by omega
      simp [c1, c2, c3, c4, c5, c6, c7, c8, c9, c10, h64]
    · have hd : decide (sq = i) = false := by simp [hi]
      simp only [hd, Bool.xor_false, Bool.or_false]
      exact hI

end BaseBoard

/-! Claim theorems. -/

/-- Claim C3 (refuted; code bug): for a colour with exactly one
non-promoted king, king(colour) does NOT return the square occupied by
that king.  With the only white king on E1 (bit 4), the king-mask is
BB_E1 and the non-promoted white king count is one, yet king(WHITE)
returns 59 = 63 - 4, because msb in BitboardOps.hpp returns
__builtin_clzll (the leading-zero count) instead of the index of the
most significant set bit.  The absent-king half of the claim does hold:
with no king the function returns none. -/
theorem claim_C3_king_misreports_square :
    kingE1Board.king WHITE = some 59 ∧
    kingE1Board.kings = BB_SQUARES 4 ∧
    popcount (kingE1Board.occupied_co WHITE &&& kingE1Board.kings &&&
      bbnot kingE1Board.promoted) = 1 ∧
    BaseBoard.clearBoard.king WHITE = none := by
  refine ⟨by decide, by decide, by decide, by decide⟩

/-- Claim C8 (refuted; code bug): from_uci on the valid lowercase UCI
string e2e4 does not return the move from square 12 to square 28.
SQUARE_NAMES in the source holds UPPERCASE names listed file-major
(A1, A2, ..., A8, B1, ...), so both lowercase lookups fail and return
index 64; the two equal indices then trigger the
invalid-uci-for-null-moves error.  from_uci("0000") does return the
null move. -/
theorem claim_C8_from_uci_rejects_lowercase :
    Move.from_uci "e2e4" =
      Except.error "invalid uci (use 0000 for null moves): e2e4" ∧
    Move.from_uci "0000" = Except.ok Move.null ∧
    index SQUARE_NAMES "e2" = 64 := by
  refine ⟨by rfl, by rfl, by decide⟩

/-- Claim C9 (refuted; code bug): popping from an empty SquareSet does
not raise: the source constructs std::invalid_argument without a throw
statement, so pop returns normally (with the result of the undefined
__builtin_ctzll(0) as the square). -/
theorem claim_C9_pop_empty_returns_normally :
    SquareSet.pop BB_EMPTY = Except.ok (lsb BB_EMPTY, BB_EMPTY) := by
  rfl

/-- Claim C10 (refuted; code bug): on the starting position, square 0
(A1) belongs to occupied_co[WHITE] and color_at reports WHITE, but
piece_at reports the rook there as BLACK: piece_at casts the nonzero
bitboard occupied_co[WHITE] & mask to the bool-backed Color enum, and
nonzero converts to true = BLACK. -/
theorem claim_C10_piece_at_color_mismatch :
    BaseBoard.resetBoard.piece_at 0 = some ⟨.ROOK, BLACK⟩ ∧
    BaseBoard.resetBoard.color_at 0 = some WHITE ∧
    BaseBoard.resetBoard.occupied_co WHITE &&& BB_SQUARES 0 ≠ 0 := by
  refine ⟨by decide, by decide, by decide⟩

/-- Claim C6 (confirmed): for every BaseBoard satisfying the data-model
invariants (the six piece-type bitboards pairwise disjoint with union
equal to occupied; the two colour masks disjoint with union equal to
occupied; promoted a subset of occupied; all fields 64-bit values) and
for every square, optional piece, colour (carried inside the piece) and
promoted flag, set_piece_at and remove_piece_at preserve all of these
invariants. -/
theorem claim_C6_set_remove_preserve_invariants (b : BaseBoard) (hb : b.Inv)
    (sq : Nat) (hsq : sq < 64) (piece : Option Piece) (wasp : Bool) :
    (b.set_piece_at sq piece wasp).Inv ∧ ((b.remove_piece_at sq).2).Inv := by
  constructor
  · cases piece with
    | none =>
      simp only [BaseBoard.set_piece_at]
      exact BaseBoard.removePieceAt_inv b sq hsq hb
    | some p =>
      simp only [BaseBoard.set_piece_at]
      exact BaseBoard.setPieceAtRaw_inv b sq p.piece_type p.color wasp hsq hb
  · have he : (b.remove_piece_at sq).2 = (b.removePieceAt sq).2 := by
      simp only [BaseBoard.remove_piece_at]
      rcases h : b.removePieceAt sq with ⟨o, b2⟩
      cases o <;> simp
    rw [he]
    exact BaseBoard.removePieceAt_inv b sq hsq hb

/-- Witness for claim C6: the starting position satisfies the
invariants, and both operations applied there keep them. -/
theorem claim_C6_witness :
    BaseBoard.resetBoard.Inv ∧ (0 : Nat) < 64 ∧
    (BaseBoard.resetBoard.set_piece_at 0 (some ⟨.QUEEN, WHITE⟩) false).Inv ∧
    ((BaseBoard.resetBoard.remove_piece_at 0).2).Inv := by
  have h : BaseBoard.resetBoard.Inv := by constructor <;> decide
  exact ⟨h, by decide,
    (claim_C6_set_remove_preserve_invariants BaseBoard.resetBoard h 0 (by decide)
      (some ⟨.QUEEN, WHITE⟩) false).1,
    (claim_C6_set_remove_preserve_invariants BaseBoard.resetBoard h 0 (by decide)
      (some ⟨.QUEEN, WHITE⟩) false).2⟩

/-- The first guard of chess960_pos is always taken: the integral OR
with BB_RANK_2 is nonzero whatever the comparison yields. -/
theorem chess960_pos_eq_none (b : BaseBoard) : b.chess960_pos = none := by
  have hc : ((if b.occupied_w ≠ BB_RANK_1 then (1 : Nat) else 0) ||| BB_RANK_2) ≠ 0 := by
    by_cases h : b.occupied_w = BB_RANK_1
    · simp only [h, ne_eq, not_true_eq_false, if_false]
      decide
    · simp only [ne_eq, h, not_false_eq_true, if_true]
      decide
  unfold BaseBoard.chess960_pos
  rw [if_pos hc]

/-- Claim C5 (refuted; code bug): set_chess960_pos(0) succeeds, but
chess960_pos on the resulting board returns absent instead of 0, so the
round trip fails for every n; indeed chess960_pos returns absent on
every board, because its first guard
(occupied_co[WHITE] != BB_RANK_1 | BB_RANK_2) parses in C++ as
((occupied_co[WHITE] != BB_RANK_1) | BB_RANK_2), which is always
nonzero. -/
theorem claim_C5_chess960_roundtrip_fails :
    BaseBoard.clearBoard.setChess960Pos 0 = Except.ok c960board0 ∧
    c960board0.chess960_pos = none ∧
    (∀ b : BaseBoard, b.chess960_pos = none) := by
  refine ⟨by rfl, chess960_pos_eq_none c960board0, chess960_pos_eq_none⟩


/-- Claim C2 (refuted; code bug): in a position where the claimed
preconditions hold -- White to move, ep_square = d6 (square 43) set and
unoccupied, and the single white pawn on e5 (square 36, rank 5, rank
index 4) attacks the ep square -- the en-passant generator yields no
move at all, instead of exactly one.  The capturers mask of EPIterator
inverts both colour-dependent indices (BB_PAWN_ATTACKS[!turn] selects
the attacker-coloured table and BB_RANKS[turn ? 4 : 3] the wrong rank)
because the Color enum declares WHITE = 0, so the mask is empty. -/
theorem claim_C2_ep_generator_yields_nothing :
    epScenario.turn = WHITE ∧
    epScenario.ep_square = some 43 ∧
    BB_SQUARES 43 &&& epScenario.occupied = 0 ∧
    epScenario.pawns &&& epScenario.occupied_co WHITE = BB_SQUARES 36 ∧
    square_rank 36 = 4 ∧
    (BB_PAWN_ATTACKS 1 36).testBit 43 = true ∧
    epScenario.epMoves = [] := by
  exact ⟨rfl, rfl, by decide, by decide, by decide, by decide, by decide⟩


/-- Claim C1 (confirmed; push and pop modelled from the spec, the
snapshot and restore from struct _BoardState of the source): for every
board and move, push followed by pop returns the move and a board whose
BaseBoard (all nine piece and occupancy bitboards together with the
promoted mask), turn, castling rights, ep square, halfmove clock and
fullmove number equal the originals bit-for-bit, and whose move stack
is the original one. -/
theorem claim_C1_push_pop_roundtrip (b : Board) (m : Move) :
    ∃ b' : Board,
      (b.push m).pop = Except.ok (m, b') ∧
      b'.toBaseBoard = b.toBaseBoard ∧
      b'.turn = b.turn ∧
      b'.castling_rights = b.castling_rights ∧
      b'.ep_square = b.ep_square ∧
      b'.halfmove_clock = b.halfmove_clock ∧
      b'.fullmove_number = b.fullmove_number ∧
      b'.move_stack = b.move_stack ∧
      b'.stack = b.stack := by
  exact ⟨_, rfl, rfl, rfl, rfl, rfl, rfl, rfl, rfl, rfl⟩


/-- A key with a nonzero stored count is present in the counter with
that count. -/
theorem hcCount_pos_mem {α : Type} [DecidableEq α] (l : List (α × Nat))
    (k : α) (h : hcCount l k ≠ 0) : (k, hcCount l k) ∈ l := by
  induction l with
  | nil => exact absurd rfl h
  | cons p rest ih =>
    rcases p with ⟨a, v⟩
    by_cases hk : a = k
    · subst hk
      simp only [hcCount, if_pos rfl]
      exact List.mem_cons_self _ _
    · simp only [hcCount, if_neg hk] at h ⊢
      exact List.mem_cons_of_mem _ (ih h)

/-- Claim C4 (refuted; code bug): after Nf3 Nf6 Ng1 Ng8 Nf3 Nf6 Ng1 Ng8
from the starting position the current transposition key occurs 3 times
in the game history, yet can_claim_threefold_repetition returns false
for EVERY possible list of probe moves (generate_legal_moves is not
among the source files).  The cause is HashCounter::add
(StringTools.hpp), which stores 0 for a newly inserted key, so the
counter reports 2 for the thrice-added current key, and at most 1 for
any key a probe move can reach (a probed position has Black to move,
while the only key with stored count 2 has White to move).  push, pop,
the transposition key and is_irreversible are modelled from the spec;
the counting loop, the counter and the claim logic follow the source. -/
theorem claim_C4_threefold_claim_missed :
    (historyKeys repScenario).count repScenario.transpositionKey = 3 ∧
    hcCount repTranspositions repScenario.transpositionKey = 2 ∧
    ∀ lmoves : List Move,
      repScenario.can_claim_threefold_repetition lmoves = false := by
  refine ⟨by decide, by decide, ?_⟩
  intro lmoves
  show (if 3 ≤ hcCount repTranspositions repScenario.transpositionKey then true
    else lmoves.any fun move =>
      decide (2 ≤ hcCount repTranspositions
        (repScenario.push move).transpositionKey)) = false
  rw [if_neg (by decide)]
  rw [List.any_eq_false]
  intro m hm hge0
  have hge : 2 ≤ hcCount repTranspositions
      (repScenario.push m).transpositionKey := of_decide_eq_true hge0
  have hmem := hcCount_pos_mem repTranspositions
    (repScenario.push m).transpositionKey (by omega)
  have hall : repTranspositions.all
      (fun p => !(decide (2 ≤ p.2)) || decide (p.1.turn = WHITE)) = true := by
    decide
  have hw := List.all_eq_true.mp hall _ hmem
  simp only [Bool.or_eq_true, Bool.not_eq_true', decide_eq_true_eq,
    decide_eq_false_iff_not] at hw
  have hturn : (repScenario.push m).transpositionKey.turn = BLACK := rfl
  rcases hw with hlt | hwht
  · exact hlt hge
  · rw [hturn] at hwht
    exact Color.noConfusion hwht


theorem xor_mod_two (a b : Nat) : (a ^^^ b) % 2 = (a % 2 + b % 2) % 2 := by
  have h := Nat.testBit_xor a b 0
  simp only [Nat.testBit_zero] at h
  rcases Nat.mod_two_eq_zero_or_one a with ha | ha <;>
    rcases Nat.mod_two_eq_zero_or_one b with hb | hb <;>
      simp [ha, hb] at h ⊢ <;> omega

theorem and_mod_two (a b : Nat) : (a &&& b) % 2 = min (a % 2) (b % 2) := by
  have h := Nat.testBit_and a b 0
  simp only [Nat.testBit_zero] at h
  rcases Nat.mod_two_eq_zero_or_one (a &&& b) with hab | hab <;>
    rcases Nat.mod_two_eq_zero_or_one a with ha | ha <;>
      rcases Nat.mod_two_eq_zero_or_one b with hb | hb <;>
        rw [hab, ha, hb] at h ⊢ <;>
          first
          | exact absurd h (by decide)
          | decide

theorem two_mul_xor (x y : Nat) : 2 * x ^^^ 2 * y = 2 * (x ^^^ y) := by
  have hd : (2 * x ^^^ 2 * y) / 2 = x ^^^ y := by
    rw [Nat.xor_div_two]; congr 1 <;> omega
  have hm := xor_mod_two (2 * x) (2 * y)
  omega

theorem two_mul_add_one_xor (x y : Nat) :
    (2 * x + 1) ^^^ (2 * y + 1) = 2 * (x ^^^ y) := by
  have hd : ((2 * x + 1) ^^^ (2 * y + 1)) / 2 = x ^^^ y := by
    rw [Nat.xor_div_two]; congr 1 <;> omega
  have hm := xor_mod_two (2 * x + 1) (2 * y + 1)
  omega

theorem two_mul_add_one_xor_two_mul (x y : Nat) :
    (2 * x + 1) ^^^ 2 * y = 2 * (x ^^^ y) + 1 := by
  have hd : ((2 * x + 1) ^^^ 2 * y) / 2 = x ^^^ y := by
    rw [Nat.xor_div_two]; congr 1 <;> omega
  have hm := xor_mod_two (2 * x + 1) (2 * y)
  omega

theorem two_mul_and (x y : Nat) : 2 * x &&& 2 * y = 2 * (x &&& y) := by
  have hd : (2 * x &&& 2 * y) / 2 = x &&& y := by
    rw [Nat.and_div_two]; congr 1 <;> omega
  have hm := and_mod_two (2 * x) (2 * y)
  omega

theorem two_mul_and_two_mul_add_one (x y : Nat) :
    2 * x &&& (2 * y + 1) = 2 * (x &&& y) := by
  have hd : (2 * x &&& (2 * y + 1)) / 2 = x &&& y := by
    rw [Nat.and_div_two]; congr 1 <;> omega
  have hm := and_mod_two (2 * x) (2 * y + 1)
  omega

theorem two_mul_add_one_and_two_mul (x y : Nat) :
    (2 * x + 1) &&& 2 * y = 2 * (x &&& y) := by
  have hd : ((2 * x + 1) &&& 2 * y) / 2 = x &&& y := by
    rw [Nat.and_div_two]; congr 1 <;> omega
  have hm := and_mod_two (2 * x + 1) (2 * y)
  omega

theorem two_mul_add_one_and (x y : Nat) :
    (2 * x + 1) &&& (2 * y + 1) = 2 * (x &&& y) + 1 := by
  have hd : ((2 * x + 1) &&& (2 * y + 1)) / 2 = x &&& y := by
    rw [Nat.and_div_two]; congr 1 <;> omega
  have hm := and_mod_two (2 * x + 1) (2 * y + 1)
  omega

theorem le_of_and_eq {s m : Nat} (h : s &&& m = s) : s ≤ m := by
  calc s = s &&& m := h.symm
    _ ≤ m := Nat.and_le_right

/-- For a subset, subtraction is exclusive or. -/
theorem sub_eq_xor_of_and_eq : ∀ m s : Nat, s &&& m = s → m - s = m ^^^ s := by
  intro m
  induction m using Nat.strong_induction_on with
  | _ m ih =>
    intro s h
    rcases Nat.eq_zero_or_pos m with hm0 | hmpos
    · subst hm0
      have : s = 0 := by rw [← h]; simp
      subst this; simp
    · have h2 : s / 2 &&& m / 2 = s / 2 := by
        rw [← Nat.and_div_two, h]
      have ihm := ih (m / 2) (Nat.div_lt_self hmpos (by omega)) (s / 2) h2
      have hle : s ≤ m := le_of_and_eq h
      have hle2 : s / 2 ≤ m / 2 := le_of_and_eq h2
      have hpar : s % 2 = 1 → m % 2 = 1 := by
        intro hs1
        have hm2 := and_mod_two s m
        rw [h] at hm2
        rcases Nat.mod_two_eq_zero_or_one m with hm | hm <;> omega
      have hxd : (m ^^^ s) / 2 = m / 2 ^^^ s / 2 := Nat.xor_div_two
      have hxm := xor_mod_two m s
      rcases Nat.mod_two_eq_zero_or_one s with hs | hs
      · omega
      · have := hpar hs; omega

/-- Width elimination: for a proper subset of a 64-bit mask, the
two's-complement carry-rippler step equals its width-independent
form. -/
theorem cr_next_eq_crStep {m s : Nat} (hm : m < 2 ^ 64) (hs : s &&& m = s)
    (hne : s ≠ m) : cr_next m s = crStep m s := by
  have hle : s ≤ m := le_of_and_eq hs
  have hsub : m - s = m ^^^ s := sub_eq_xor_of_and_eq m s hs
  set u := m ^^^ s with hu
  have hune : u ≠ 0 := by
    intro h0
    exact hne (by omega)
  have hult : u ≤ m := by omega
  have h1 : 2 ^ 64 + s - m = 2 ^ 64 - u := by omega
  have ht : u - 1 < 2 ^ 64 := by omega
  have htsub : (u - 1) &&& (2 ^ 64 - 1) = u - 1 := by
    apply eq_iff_testBit.mpr
    intro i
    rw [Nat.testBit_and]
    rcases Nat.lt_or_ge i 64 with hi | hi
    · have hones : (2 ^ 64 - 1 : Nat).testBit i = true := by
        rw [Nat.testBit_two_pow_sub_one]; simpa using hi
      rw [hones, Bool.and_true]
    · have hult2 : (u - 1).testBit i = false := by
        apply Nat.testBit_lt_two_pow
        calc u - 1 < 2 ^ 64 := ht
          _ ≤ 2 ^ i := Nat.pow_le_pow_right (by omega) hi
      rw [hult2, Bool.false_and]
  have h2 : (2 ^ 64 - 1) - (u - 1) = (2 ^ 64 - 1) ^^^ (u - 1) := by
    have := sub_eq_xor_of_and_eq (2 ^ 64 - 1) (u - 1) htsub
    exact this
  have h3 : 2 ^ 64 - u = (2 ^ 64 - 1) ^^^ (u - 1) := by omega
  have h4 : (2 ^ 64 - 1) ^^^ (u - 1) < 2 ^ 64 := by
    apply lt_two_pow_64_iff.mpr
    intro i hi
    rw [Nat.testBit_xor]
    have hx1 : (2 ^ 64 - 1 : Nat).testBit i = false := by
      rw [Nat.testBit_two_pow_sub_one]; simpa using Nat.not_lt.mpr hi
    have hx2 : (u - 1).testBit i = false := by
      apply Nat.testBit_lt_two_pow
      calc u - 1 < 2 ^ 64 := ht
        _ ≤ 2 ^ i := Nat.pow_le_pow_right (by omega) hi
    rw [hx1, hx2]
    rfl
  unfold cr_next crStep
  rw [h1, h3, Nat.mod_eq_of_lt h4]
  apply eq_iff_testBit.mpr
  intro i
  rw [Nat.testBit_and, Nat.testBit_xor, Nat.testBit_xor, Nat.testBit_and]
  by_cases hmi : m.testBit i
  · have hi64 : i < 64 := by
      by_contra hge
      have : m.testBit i = false := by
        apply Nat.testBit_lt_two_pow
        calc m < 2 ^ 64 := hm
          _ ≤ 2 ^ i := Nat.pow_le_pow_right (by omega) (by omega)
      rw [this] at hmi; exact Bool.noConfusion hmi
    have hall : (2 ^ 64 - 1 : Nat).testBit i = true := by
      rw [Nat.testBit_two_pow_sub_one]; simpa using hi64
    rw [hall, hmi]
    cases (u - 1).testBit i <;> rfl
  · rw [Bool.eq_false_iff.mpr hmi]
    cases (2 ^ 64 - 1 : Nat).testBit i <;> cases (u - 1).testBit i <;> rfl

theorem cr_next_self (m : Nat) : cr_next m m = 0 := by
  unfold cr_next
  have : 2 ^ 64 + m - m = 2 ^ 64 := by omega
  rw [this, Nat.mod_self, Nat.zero_and]


theorem xor_xor_self_left (a b : Nat) : a ^^^ (a ^^^ b) = b := by
  rw [← Nat.xor_assoc, Nat.xor_self, Nat.zero_xor]

theorem and_xor_of_subset {m s : Nat} (h : s &&& m = s) :
    m &&& (m ^^^ s) = m ^^^ s := by
  apply eq_iff_testBit.mpr
  intro i
  rw [Nat.testBit_and, Nat.testBit_xor]
  have hsm : s.testBit i = true → m.testBit i = true := by
    intro hsi
    have h2 := congrArg (fun x => x.testBit i) h
    simp only [Nat.testBit_and, hsi, Bool.true_and] at h2
    exact h2
  cases hmi : m.testBit i
  · have hsi : s.testBit i = false := by
      cases hsi : s.testBit i
      · rfl
      · have := hsm hsi
        rw [hmi] at this
        exact Bool.noConfusion this
    rw [hsi]
    rfl
  · cases s.testBit i <;> rfl

/-- The width-independent carry-rippler step maps a proper subset of the
mask to the NEXT subset: the result is again a subset, it is larger,
and no subset lies strictly between. -/
theorem crStep_spec : ∀ f m s : Nat, m < 2 ^ f → s &&& m = s → s ≠ m →
    crStep m s &&& m = crStep m s ∧ s < crStep m s ∧
      ∀ S : Nat, S &&& m = S → s < S → crStep m s ≤ S := by
  intro f
  induction f with
  | zero =>
    intro m s hm hs hne
    have hm0 : m = 0 := by omega
    subst hm0
    have : s = 0 := by rw [← hs]; simp
    exact absurd this hne
  | succ f ih =>
    intro m s hm hs hne
    set m' := m / 2 with hm'
    set s' := s / 2 with hs'
    have hm'lt : m' < 2 ^ f := by
      rw [hm']
      rw [pow_succ] at hm
      omega
    have hs2 : s' &&& m' = s' := by
      rw [hs', hm', ← Nat.and_div_two, hs]
    have hparS := and_mod_two s m
    rw [hs] at hparS
    rcases Nat.mod_two_eq_zero_or_one m with hmp | hmp
    · have hsp : s % 2 = 0 := by omega
      have hmeq : m = 2 * m' := by omega
      have hseq : s = 2 * s' := by omega
      have hne' : s' ≠ m' := by omega
      have hupos : m' ^^^ s' ≠ 0 := fun h0 =>
        hne' (Nat.xor_eq_zero.mp h0).symm
      have h1 : (m ^^^ s) - 1 = 2 * ((m' ^^^ s') - 1) + 1 := by
        rw [hmeq, hseq, two_mul_xor]
        omega
      have hE : crStep m s = 2 * crStep m' s' := by
        unfold crStep
        rw [h1, hmeq, two_mul_and_two_mul_add_one, two_mul_xor]
      obtain ⟨ih1, ih2, ih3⟩ := ih m' s' hm'lt hs2 hne'
      refine ⟨?_, ?_, ?_⟩
      · rw [hE, hmeq, two_mul_and, ih1]
      · rw [hE, hseq]
        omega
      · intro S hS hlt
        have hSp : S % 2 = 0 := by
          have h3 := and_mod_two S m
          rw [hS] at h3
          omega
        have hS2 : S / 2 &&& m' = S / 2 := by
          rw [hm', ← Nat.and_div_two, hS]
        have h4 := ih3 (S / 2) hS2 (by omega)
        rw [hE]
        omega
    · rcases Nat.mod_two_eq_zero_or_one s with hsp | hsp
      · have hmeq : m = 2 * m' + 1 := by omega
        have hseq : s = 2 * s' := by omega
        have hu : m ^^^ s = 2 * (m' ^^^ s') + 1 := by
          rw [hmeq, hseq, two_mul_add_one_xor_two_mul]
        have h1 : (m ^^^ s) - 1 = 2 * (m' ^^^ s') := by omega
        have hE : crStep m s = s + 1 := by
          unfold crStep
          rw [h1, hmeq, hseq, two_mul_add_one_and_two_mul,
            and_xor_of_subset hs2, two_mul_add_one_xor_two_mul,
            xor_xor_self_left]
        refine ⟨?_, by omega, fun S hS hlt => by omega⟩
        rw [hE, hseq, hmeq]
        calc 2 * s' + 1 &&& (2 * m' + 1) = 2 * (s' &&& m') + 1 :=
              two_mul_add_one_and s' m'
          _ = 2 * s' + 1 := by rw [hs2]
      · have hmeq : m = 2 * m' + 1 := by omega
        have hseq : s = 2 * s' + 1 := by omega
        have hne' : s' ≠ m' := by omega
        have hupos : m' ^^^ s' ≠ 0 := fun h0 =>
          hne' (Nat.xor_eq_zero.mp h0).symm
        have hu : m ^^^ s = 2 * (m' ^^^ s') := by
          rw [hmeq, hseq, two_mul_add_one_xor]
        have h1 : (m ^^^ s) - 1 = 2 * ((m' ^^^ s') - 1) + 1 := by omega
        have hE : crStep m s = 2 * crStep m' s' := by
          unfold crStep
          rw [h1, hmeq, two_mul_add_one_and, two_mul_add_one_xor]
        obtain ⟨ih1, ih2, ih3⟩ := ih m' s' hm'lt hs2 hne'
        refine ⟨?_, ?_, ?_⟩
        · rw [hE, hmeq]
          calc 2 * crStep m' s' &&& (2 * m' + 1)
              = 2 * (crStep m' s' &&& m') := two_mul_and_two_mul_add_one _ _
            _ = 2 * crStep m' s' := by rw [ih1]
        · rw [hE, hseq]
          omega
        · intro S hS hlt
          have hS2 : S / 2 &&& m' = S / 2 := by
            rw [hm', ← Nat.and_div_two, hS]
          have hSb : s' < S / 2 := by omega
          have h4 := ih3 (S / 2) hS2 hSb
          rw [hE]
          omega


/-- Every subset of the mask at or above the current one appears in the
remaining carry-rippler enumeration, given enough fuel. -/
theorem crAux_mem : ∀ fuel m s S : Nat, m < 2 ^ 64 → s &&& m = s →
    S &&& m = S → s ≤ S → m - s < fuel → S ∈ crAux m fuel s := by
  intro fuel
  induction fuel with
  | zero =>
    intro m s S hm hs hS hle hfuel
    omega
  | succ fuel ih =>
    intro m s S hm hs hS hle hfuel
    unfold crAux
    rcases eq_or_lt_of_le hle with heq | hlt
    · exact heq ▸ List.mem_cons_self _ _
    · have hsle : s ≤ m := le_of_and_eq hs
      have hSle : S ≤ m := le_of_and_eq hS
      have hsm : s ≠ m := by omega
      have hbr := cr_next_eq_crStep hm hs hsm
      obtain ⟨hc1, hc2, hc3⟩ := crStep_spec 64 m s hm hs hsm
      have hcne : cr_next m s ≠ 0 := by
        rw [hbr]
        omega
      apply List.mem_cons_of_mem
      rw [if_neg hcne]
      have hcle : cr_next m s ≤ S := by
        rw [hbr]
        exact hc3 S hS hlt
      have hcs : cr_next m s &&& m = cr_next m s := by rw [hbr]; exact hc1
      apply ih m (cr_next m s) S hm hcs hS hcle
      have : s < cr_next m s := by rw [hbr]; exact hc2
      omega

/-- Completeness of the carry-rippler enumeration (CRRange, part_002):
every subset of a 64-bit mask is yielded. -/
theorem carry_rippler_mem {m S : Nat} (hm : m < 2 ^ 64)
    (hS : S &&& m = S) : S ∈ _carry_rippler m := by
  apply crAux_mem (m + 2) m 0 S hm (Nat.zero_and m) hS (Nat.zero_le S)
  omega

/-- Looking a list member up in the association list that tabulates f
over the list returns its f value. -/
theorem lookup_map_mem {α β : Type} [BEq α] [LawfulBEq α] (f : α → β) :
    ∀ (L : List α) (k : α), k ∈ L →
      List.lookup k (L.map fun x => (x, f x)) = some (f k) := by
  intro L
  induction L with
  | nil =>
    intro k hk
    exact absurd hk (List.not_mem_nil k)
  | cons x xs ih =>
    intro k hk
    by_cases hkx : k = x
    · subst hkx
      simp [List.lookup]
    · have hbeq : (k == x) = false := beq_eq_false_iff_ne.mpr hkx
      simp only [List.map_cons, List.lookup, hbeq]
      exact ih k (List.mem_of_ne_of_mem hkx hk)

/-- A ray that has run out produces no further attacks. -/
theorem slideWalk_eq_zero_of_rayList_nil :
    ∀ (fuel : Nat) (O : Bitboard) (delta : Int) (sq : Int),
      rayList delta fuel sq = [] → slideWalk O delta fuel sq = 0 := by
  intro fuel O delta sq h
  cases fuel with
  | zero => rfl
  | succ fuel =>
    unfold rayList at h
    unfold slideWalk
    by_cases hg : sq + delta < 0 ∨ 64 ≤ sq + delta ∨
        2 < square_distance (sq + delta).toNat (sq + delta - delta).toNat
    · rw [if_pos hg]
    · rw [if_neg hg] at h
      exact absurd h (List.cons_ne_nil _ _)

/-- The walk of one delta only reads the occupancy on the squares of
the geometric ray save its last one: two occupancies agreeing there
walk identically. -/
theorem slideWalk_congr :
    ∀ (fuel : Nat) (O1 O2 : Bitboard) (delta : Int) (sq : Int),
      (∀ q ∈ (rayList delta fuel sq).dropLast,
        O1.testBit q = O2.testBit q) →
      slideWalk O1 delta fuel sq = slideWalk O2 delta fuel sq := by
  intro fuel
  induction fuel with
  | zero => intro O1 O2 delta sq h; rfl
  | succ fuel ih =>
    intro O1 O2 delta sq h
    unfold slideWalk
    by_cases hg : sq + delta < 0 ∨ 64 ≤ sq + delta ∨
        2 < square_distance (sq + delta).toNat (sq + delta - delta).toNat
    · rw [if_pos hg, if_pos hg]
    · rw [if_neg hg, if_neg hg]
      rcases hray : rayList delta fuel (sq + delta) with _ | ⟨r, rest⟩
      · have hz1 := slideWalk_eq_zero_of_rayList_nil fuel O1 delta
          (sq + delta) hray
        have hz2 := slideWalk_eq_zero_of_rayList_nil fuel O2 delta
          (sq + delta) hray
        rw [hz1, hz2, Nat.or_zero]
        split_ifs <;> rfl
      · have hq : O1.testBit (sq + delta).toNat =
            O2.testBit (sq + delta).toNat := by
          apply h
          unfold rayList
          rw [if_neg hg, hray]
          simp [List.dropLast]
        have hocc : (O1 &&& BB_SQUARES (sq + delta).toNat ≠ 0) ↔
            (O2 &&& BB_SQUARES (sq + delta).toNat ≠ 0) := by
          rw [and_two_pow_ne_zero_iff, and_two_pow_ne_zero_iff, hq]
        by_cases h1 : O1 &&& BB_SQUARES (sq + delta).toNat ≠ 0
        · rw [if_pos h1, if_pos (hocc.mp h1)]
        · rw [if_neg h1, if_neg (fun hx => h1 (hocc.mpr hx))]
          congr 1
          apply ih
          intro q hq2
          apply h
          unfold rayList
          rw [if_neg hg, hray]
          rw [hray] at hq2
          simp only [List.dropLast]
          exact List.mem_cons_of_mem _ hq2


theorem foldl_walk_congr (O1 O2 : Bitboard) :
    ∀ (deltas : List Int) (sq : Nat) (acc : Bitboard),
      (∀ d ∈ deltas, slideWalk O1 d 64 sq = slideWalk O2 d 64 sq) →
      deltas.foldl (fun a d => a ||| slideWalk O1 d 64 sq) acc =
        deltas.foldl (fun a d => a ||| slideWalk O2 d 64 sq) acc := by
  intro deltas
  induction deltas with
  | nil => intro sq acc h; rfl
  | cons d ds ih =>
    intro sq acc h
    simp only [List.foldl_cons]
    rw [h d (List.mem_cons_self d ds)]
    exact ih sq _ (fun e he => h e (List.mem_cons_of_mem d he))

/-- The heart of claim C7: whenever every inner ray square of the
square lies in the mask, the table lookup at occupancy & mask
reproduces the reference sliding-attack computation at the full
occupancy. -/
theorem attackLookup_eq (deltas : List Int) (s O : Nat)
    (hmw : attackMask deltas s < 2 ^ 64)
    (hclose : ∀ d ∈ deltas, ∀ q ∈ (rayList d 64 (s : Int)).dropLast,
      (attackMask deltas s).testBit q = true) :
    attackLookup deltas s O = some (_sliding_attacks s O deltas) := by
  unfold attackLookup attackTable
  have hsub : (O &&& attackMask deltas s) &&& attackMask deltas s =
      O &&& attackMask deltas s := by
    rw [Nat.and_assoc, Nat.and_self]
  rw [lookup_map_mem _ _ _ (carry_rippler_mem hmw hsub)]
  congr 1
  unfold _sliding_attacks
  apply foldl_walk_congr
  intro d hd
  apply slideWalk_congr
  intro q hq
  rw [Nat.testBit_and, hclose d hd q hq, Bool.and_true]

/-- Claim C7 (confirmed): for every square and every 64-bit occupancy,
the runtime table lookup -- the attacks map of the square at key
occupancy & mask, for each of the three direction families _DIAG,
_RANK and _FILE of the source -- returns exactly the reference
algorithm _sliding_attacks(square, occupancy, deltas).  The mask of a
square contains every inner square of its rays, so masking the
occupancy never changes the walk, and the carry-rippler enumeration
reaches every subset of the mask, so the key is always present. -/
theorem claim_C7_attack_tables_match_reference (s O : Nat) (hs : s < 64)
    (_hO : O < 2 ^ 64) :
    attackLookup _DIAG s O = some (_sliding_attacks s O _DIAG) ∧
    attackLookup _RANK s O = some (_sliding_attacks s O _RANK) ∧
    attackLookup _FILE s O = some (_sliding_attacks s O _FILE) := by
  have hD : ∀ t : Nat, t < 64 → attackMask _DIAG t < 2 ^ 64 ∧
      ∀ d ∈ _DIAG, ∀ q ∈ (rayList d 64 (t : Int)).dropLast,
        (attackMask _DIAG t).testBit q = true := by decide
  have hR : ∀ t : Nat, t < 64 → attackMask _RANK t < 2 ^ 64 ∧
      ∀ d ∈ _RANK, ∀ q ∈ (rayList d 64 (t : Int)).dropLast,
        (attackMask _RANK t).testBit q = true := by decide
  have hF : ∀ t : Nat, t < 64 → attackMask _FILE t < 2 ^ 64 ∧
      ∀ d ∈ _FILE, ∀ q ∈ (rayList d 64 (t : Int)).dropLast,
        (attackMask _FILE t).testBit q = true := by decide
  exact ⟨attackLookup_eq _DIAG s O (hD s hs).1 (hD s hs).2,
    attackLookup_eq _RANK s O (hR s hs).1 (hR s hs).2,
    attackLookup_eq _FILE s O (hF s hs).1 (hF s hs).2⟩

/-- Witness for claim C7 at square d4 (27) with a single blocker on
e5 (36). -/
theorem claim_C7_witness :
    (27 : Nat) < 64 ∧ BB_SQUARES 36 < 2 ^ 64 ∧
    (attackLookup _DIAG 27 (BB_SQUARES 36) =
        some (_sliding_attacks 27 (BB_SQUARES 36) _DIAG) ∧
      attackLookup _RANK 27 (BB_SQUARES 36) =
        some (_sliding_attacks 27 (BB_SQUARES 36) _RANK) ∧
      attackLookup _FILE 27 (BB_SQUARES 36) =
        some (_sliding_attacks 27 (BB_SQUARES 36) _FILE)) :=
  ⟨by decide, by decide,
    claim_C7_attack_tables_match_reference 27 (BB_SQUARES 36) (by decide)
      (by decide)⟩

end CppChess
